import Mathlib

/-!
Verification development for the klang code-generation layer
(src/lib/AST/ASTNodes.cpp, src/lib/Driver/Utils.cpp, src/tools/driver/Driver.cpp).

Shallow embedding notes:
* The language's doubles are modelled as exact rationals (ℚ).  Every value the
  examples in the specification exercise (0.0, 1.0, 2.0, ..., 7.0) is exactly
  representable in both IEEE doubles and ℚ, and the emitted arithmetic
  (fadd/fsub/fmul/fcmp) is exact at those points, so the two agree on
  everything proved here.
* `NamedValues : std::map<std::string, llvm::AllocaInst*>` is modelled as a
  function `String → Option (Option Nat)`: the outer `Option` is key
  presence, the inner `Option` is the nullable `AllocaInst*` (the map's
  `operator[]` default-inserts a null pointer, which `nvIndex` reproduces).
* `llvm::AllocaInst*` handles are natural numbers drawn from a counter; the
  alloca instruction itself is placed in the entry block by
  `CreateEntryBlockAlloca` in the source, which is modelled by allocating a
  fresh stack-slot number (slot placement is immaterial to the semantics
  because the executor gives every invocation a whole memory).
* The LLVM IRBuilder collaborators (CreateFAdd, CreateLoad, ...) each append
  one instruction to the current basic block and return a fresh register.
* `ErrorV`/`ErrorF` (src/lib/Driver/Utils.cpp) print a message to stderr and
  return null; the message log is kept in the state so that which messages
  were printed is observable.
-/

namespace Klang

/-- An LLVM `Value` of double type as used by the codegen: a floating
constant (`ConstantFP`), an instruction result (register), or a formal
argument of the function under construction. -/
inductive Value where
  | cst (q : ℚ)
  | reg (r : Nat)
  | arg (i : Nat)
deriving DecidableEq

/-- The IR instructions the codegen in ASTNodes.cpp emits.  `slot` numbers
are the stack slots produced by `CreateEntryBlockAlloca`. -/
inductive Instr where
  | load (dst : Nat) (slot : Nat)
  | store (v : Value) (slot : Nat)
  | fadd (dst : Nat) (l r : Value)
  | fsub (dst : Nat) (l r : Value)
  | fmul (dst : Nat) (l r : Value)
  | fcmpult (dst : Nat) (l r : Value)
  | fcmpone (dst : Nat) (l r : Value)
  | uitofp (dst : Nat) (src : Value)
  | callI (dst : Nat) (callee : String) (args : List Value)
  | phi (dst : Nat) (incoming : List (Value × Nat))
deriving DecidableEq

/-- Basic-block terminators emitted by the codegen. -/
inductive Terminator where
  | br (target : Nat)
  | condbr (cond : Value) (thenB elseB : Nat)
  | ret (v : Value)
deriving DecidableEq

/-- A basic block: numeric label, instruction list, optional terminator. -/
structure Block where
  id : Nat
  instrs : List Instr
  term : Option Terminator
deriving DecidableEq

/-- A function in the module: its arity and its basic blocks.  A function
with no blocks is a declaration (`llvm::Function::empty()`). -/
structure Func where
  arity : Nat
  blocks : List Block
deriving DecidableEq

/-- `TheModule->getFunction(name)`. -/
def getFunction : List (String × Func) → String → Option Func
  | [], _ => none
  | (n, f) :: rest, name => if n = name then some f else getFunction rest name

/-- Insert or replace the module entry for `name`. -/
def setFunction : List (String × Func) → String → Func → List (String × Func)
  | [], name, f => [(name, f)]
  | (n, g) :: rest, name, f =>
      if n = name then (name, f) :: rest else (n, g) :: setFunction rest name f

/-- `F->eraseFromParent()`: remove the function named `name` from the module. -/
def eraseFunction : List (String × Func) → String → List (String × Func)
  | [], _ => []
  | (n, g) :: rest, name =>
      if n = name then eraseFunction rest name else (n, g) :: eraseFunction rest name

/-- The global mutable codegen state from Driver.cpp: `TheModule`,
`NamedValues`, `Token::BinopPrecedence`, plus the IRBuilder insert point and
the fresh-name counters, plus the log of `Error` messages printed by the
helpers in Utils.cpp. -/
structure CG where
  module : List (String × Func)
  namedValues : String → Option (Option Nat)
  binopPrec : Char → Option Int
  blocks : List Block
  curBlock : Nat
  nextReg : Nat
  nextSlot : Nat
  nextBlock : Nat
  errors : List String

/-- `std::map::operator[]` on `NamedValues`: returns the mapped pointer if
the key is present, otherwise default-inserts a null pointer and returns it. -/
def nvIndex (t : String → Option (Option Nat)) (x : String) :
    Option Nat × (String → Option (Option Nat)) :=
  match t x with
  | some v => (v, t)
  | none => (none, fun y => if y = x then some none else t y)

/-- `NamedValues[x] = v` (the mapped value may be a null pointer). -/
def nvAssign (x : String) (v : Option Nat) (t : String → Option (Option Nat)) :
    String → Option (Option Nat) :=
  fun y => if y = x then some v else t y

/-- `NamedValues.erase(x)`. -/
def nvErase (x : String) (t : String → Option (Option Nat)) :
    String → Option (Option Nat) :=
  fun y => if y = x then none else t y

/-- Append an instruction to the builder's current block. -/
def emit (i : Instr) (s : CG) : CG :=
  { s with blocks := s.blocks.map fun b =>
      if b.id = s.curBlock then { b with instrs := b.instrs ++ [i] } else b }

/-- Give the builder's current block its terminator (CreateBr / CreateCondBr
/ CreateRet). -/
def setTerminator (t : Terminator) (s : CG) : CG :=
  { s with blocks := s.blocks.map fun b =>
      if b.id = s.curBlock then { b with term := some t } else b }

/-- `BasicBlock::Create` with the current function as parent: reserve a fresh
label and append an empty block. -/
def newBlock (s : CG) : Nat × CG :=
  (s.nextBlock,
   { s with nextBlock := s.nextBlock + 1,
            blocks := s.blocks ++ [⟨s.nextBlock, [], none⟩] })

/-- `CreateEntryBlockAlloca`: a fresh stack slot for a mutable variable. -/
def newSlot (s : CG) : Nat × CG :=
  (s.nextSlot, { s with nextSlot := s.nextSlot + 1 })

/-- `ErrorV` from Utils.cpp: print the message, return null. -/
def errorV (msg : String) (s : CG) : Option Value × CG :=
  (none, { s with errors := s.errors ++ [msg] })

/-- `Builder.CreateLoad(slot)`. -/
def createLoad (slot : Nat) (s : CG) : Value × CG :=
  (Value.reg s.nextReg, emit (Instr.load s.nextReg slot) { s with nextReg := s.nextReg + 1 })

/-- `Builder.CreateFAdd`. -/
def createFAdd (l r : Value) (s : CG) : Value × CG :=
  (Value.reg s.nextReg, emit (Instr.fadd s.nextReg l r) { s with nextReg := s.nextReg + 1 })

/-- `Builder.CreateFSub`. -/
def createFSub (l r : Value) (s : CG) : Value × CG :=
  (Value.reg s.nextReg, emit (Instr.fsub s.nextReg l r) { s with nextReg := s.nextReg + 1 })

/-- `Builder.CreateFMul`. -/
def createFMul (l r : Value) (s : CG) : Value × CG :=
  (Value.reg s.nextReg, emit (Instr.fmul s.nextReg l r) { s with nextReg := s.nextReg + 1 })

/-- `Builder.CreateFCmpULT`. -/
def createFCmpULT (l r : Value) (s : CG) : Value × CG :=
  (Value.reg s.nextReg, emit (Instr.fcmpult s.nextReg l r) { s with nextReg := s.nextReg + 1 })

/-- `Builder.CreateFCmpONE`. -/
def createFCmpONE (l r : Value) (s : CG) : Value × CG :=
  (Value.reg s.nextReg, emit (Instr.fcmpone s.nextReg l r) { s with nextReg := s.nextReg + 1 })

/-- `Builder.CreateUIToFP` back to double. -/
def createUIToFP (v : Value) (s : CG) : Value × CG :=
  (Value.reg s.nextReg, emit (Instr.uitofp s.nextReg v) { s with nextReg := s.nextReg + 1 })

/-- `Builder.CreateCall`. -/
def createCall (callee : String) (args : List Value) (s : CG) : Value × CG :=
  (Value.reg s.nextReg,
   emit (Instr.callI s.nextReg callee args) { s with nextReg := s.nextReg + 1 })

/-- `Builder.CreatePHI` plus its `addIncoming` calls. -/
def createPhi (incoming : List (Value × Nat)) (s : CG) : Value × CG :=
  (Value.reg s.nextReg, emit (Instr.phi s.nextReg incoming) { s with nextReg := s.nextReg + 1 })

/-- The operator switch of `BinaryExprAST::Codegen` once both operands have
been lowered: the four built-ins emit the matching primitive ('<' converts
its boolean to 0.0/1.0 through uitofp); any other symbol dispatches to the
user-defined callable `binary`+Op, whose absence the source treats as a
fatal internal error (`assert(F && "binary operator not found!")`),
modelled as failure. -/
def builtinBinOp (op : Char) (lv rv : Value) (s : CG) : Option Value × CG :=
  match op with
  | '+' => let a := createFAdd lv rv s; (some a.1, a.2)
  | '-' => let a := createFSub lv rv s; (some a.1, a.2)
  | '*' => let a := createFMul lv rv s; (some a.1, a.2)
  | '<' =>
      let c := createFCmpULT lv rv s
      let u := createUIToFP c.1 c.2
      (some u.1, u.2)
  | _ =>
      match getFunction s.module ("binary".push op) with
      | none => (none, s)
      | some _ => let c := createCall ("binary".push op) [lv, rv] s; (some c.1, c.2)

mutual
/-- The expression AST of klang (ASTNodes.h/ASTNodes.cpp): numeric literal,
variable reference, unary and binary application, call, conditional, counted
loop, scoped-binding block. -/
inductive ExprAST where
  | number (v : ℚ)
  | varRef (name : String)
  | unary (op : Char) (operand : ExprAST)
  | binary (op : Char) (lhs rhs : ExprAST)
  | call (callee : String) (args : ExprList)
  | ifE (c t e : ExprAST)
  | forE (varName : String) (start endE : ExprAST) (step : OptExpr) (body : ExprAST)
  | varE (vars : VarList) (body : ExprAST)

/-- A possibly-null owned child expression (`ExprAST *Step` etc.). -/
inductive OptExpr where
  | none
  | some (e : ExprAST)

/-- `std::vector<ExprAST*>` of call arguments. -/
inductive ExprList where
  | nil
  | cons (e : ExprAST) (rest : ExprList)

/-- `std::vector<std::pair<std::string, ExprAST*>> VarNames` of a
scoped-binding block. -/
inductive VarList where
  | nil
  | cons (name : String) (init : OptExpr) (rest : VarList)
end

/-- Number of call arguments (`Args.size()`). -/
def ExprList.length : ExprList → Nat
  | .nil => 0
  | .cons _ rest => rest.length + 1

/-- The names of a scoped-binding block, in order. -/
def VarList.names : VarList → List String
  | .nil => []
  | .cons name _ rest => name :: rest.names

/-- The forward restore loop at the end of `VarExprAST::Codegen`:
`NamedValues[VarNames[i].first] = OldBindings[i]` for i = 0.. . -/
def nvRestore : VarList → List (Option Nat) →
    (String → Option (Option Nat)) → (String → Option (Option Nat))
  | VarList.nil, _, t => t
  | VarList.cons name _ rest, olds, t =>
      match olds with
      | [] => t
      | o :: os => nvRestore rest os (nvAssign name o t)

mutual
/-- `Codegen()` of each expression node, translated case by case from
ASTNodes.cpp.  Returns the produced `llvm::Value*` (none = null = failure)
and the updated global state. -/
def codegen : ExprAST → CG → Option Value × CG
  | .number v, s => (some (Value.cst v), s)
  | .varRef name, s =>
      -- VariableExprAST::Codegen: look the name up (default-inserting) and
      -- load from the alloca; null means unknown variable.
      let p := nvIndex s.namedValues name
      let s1 : CG := { s with namedValues := p.2 }
      match p.1 with
      | none => errorV "Unknown variable name" s1
      | some slot =>
          let l := createLoad slot s1
          (some l.1, l.2)
  | .unary op operand, s =>
      -- UnaryExprAST::Codegen.
      match codegen operand s with
      | (none, s1) => (none, s1)
      | (some ov, s1) =>
          match getFunction s1.module ("unary".push op) with
          | none => errorV "Unknown unary operator" s1
          | some _ =>
              let c := createCall ("unary".push op) [ov] s1
              (some c.1, c.2)
  | .binary op lhs rhs, s =>
      -- BinaryExprAST::Codegen.
      if op = '=' then
        -- Special case '=': the LHS must be an identifier; codegen the RHS
        -- only, look the variable up, store.
        match lhs with
        | .varRef name =>
            match codegen rhs s with
            | (none, s1) => (none, s1)
            | (some v, s1) =>
                let p := nvIndex s1.namedValues name
                let s2 : CG := { s1 with namedValues := p.2 }
                match p.1 with
                | none => errorV "Unknown variable name" s2
                | some slot => (some v, emit (Instr.store v slot) s2)
        | _ => errorV "destination of '=' must be a variable" s
      else
        -- Both operands are lowered (left then right) before the null
        -- checks `if (L == 0 || R == 0) return 0;`.
        let lp := codegen lhs s
        let rp := codegen rhs lp.2
        match lp.1, rp.1 with
        | some lv, some rv => builtinBinOp op lv rv rp.2
        | _, _ => (none, rp.2)
  | .call callee args, s =>
      -- CallExprAST::Codegen.
      match getFunction s.module callee with
      | none => errorV "Unknown function referenced" s
      | some f =>
          if f.arity ≠ args.length then errorV "Incorrect # arguments passed" s
          else
            match codegenArgs args s with
            | (none, s1) => (none, s1)
            | (some vs, s1) =>
                let c := createCall callee vs s1
                (some c.1, c.2)
  | .ifE cnd thn els, s =>
      -- IfExprAST::Codegen.
      match codegen cnd s with
      | (none, s1) => (none, s1)
      | (some cv, s1) =>
          let cb := createFCmpONE cv (Value.cst 0) s1
          let tb := newBlock cb.2
          -- ElseBB and MergeBB are created unparented here and pushed onto
          -- the function later; their labels are reserved now and the
          -- blocks appended at the corresponding push_back points.
          let elseId := tb.2.nextBlock
          let mergeId := tb.2.nextBlock + 1
          let s2 : CG := { tb.2 with nextBlock := tb.2.nextBlock + 2 }
          let s3 := setTerminator (Terminator.condbr cb.1 tb.1 elseId) s2
          let s4 : CG := { s3 with curBlock := tb.1 }
          match codegen thn s4 with
          | (none, s5) => (none, s5)
          | (some tv, s5) =>
              let s6 := setTerminator (Terminator.br mergeId) s5
              let thenExit := s6.curBlock
              let s7 : CG := { s6 with blocks := s6.blocks ++ [⟨elseId, [], none⟩],
                                       curBlock := elseId }
              match codegen els s7 with
              | (none, s8) => (none, s8)
              | (some ev, s8) =>
                  let s9 := setTerminator (Terminator.br mergeId) s8
                  let elseExit := s9.curBlock
                  let s10 : CG := { s9 with blocks := s9.blocks ++ [⟨mergeId, [], none⟩],
                                            curBlock := mergeId }
                  let ph := createPhi [(tv, thenExit), (ev, elseExit)] s10
                  (some ph.1, ph.2)
  | .forE varName start endE step body, s =>
      -- ForExprAST::Codegen.
      let al := newSlot s
      match codegen start al.2 with
      | (none, s1) => (none, s1)
      | (some sv, s1) =>
          let s2 := emit (Instr.store sv al.1) s1
          let lb := newBlock s2
          let s3 := setTerminator (Terminator.br lb.1) lb.2
          let s4 : CG := { s3 with curBlock := lb.1 }
          -- Save the shadowed binding (default-inserting) and install the
          -- loop variable.
          let p := nvIndex s4.namedValues varName
          let s5 : CG := { s4 with namedValues := nvAssign varName (some al.1) p.2 }
          match codegen body s5 with
          | (none, s6) => (none, s6)
          | (some _, s6) =>
              match codegenStep step s6 with
              | (none, s7) => (none, s7)
              | (some stepV, s7) =>
                  match codegen endE s7 with
                  | (none, s8) => (none, s8)
                  | (some endV, s8) =>
                      let cur := createLoad al.1 s8
                      let nxt := createFAdd cur.1 stepV cur.2
                      let s9 := emit (Instr.store nxt.1 al.1) nxt.2
                      let eb := createFCmpONE endV (Value.cst 0) s9
                      let ab := newBlock eb.2
                      let s10 := setTerminator (Terminator.condbr eb.1 lb.1 ab.1) ab.2
                      let s11 : CG := { s10 with curBlock := ab.1 }
                      -- Restore the unshadowed variable; erase entirely if
                      -- it had no previous binding.
                      let s12 : CG := { s11 with namedValues :=
                        match p.1 with
                        | some h => nvAssign varName (some h) s11.namedValues
                        | none => nvErase varName s11.namedValues }
                      (some (Value.cst 0), s12)
  | .varE vars body, s =>
      -- VarExprAST::Codegen.
      match codegenVars vars s with
      | (none, s1) => (none, s1)
      | (some olds, s1) =>
          match codegen body s1 with
          | (none, s2) => (none, s2)
          | (some bv, s2) =>
              (some bv, { s2 with namedValues := nvRestore vars olds s2.namedValues })

/-- The step expression of a counted loop: lowered if present, else the
constant 1.0 (`if (Step) { ... } else { StepVal = ConstantFP 1.0; }`). -/
def codegenStep : OptExpr → CG → Option Value × CG
  | OptExpr.some e, s => codegen e s
  | OptExpr.none, s => (some (Value.cst 1), s)

/-- The initializer of one scoped-binding pair: lowered if present, else
the constant 0.0 (`if (Init) { ... } else { InitVal = ConstantFP 0.0; }`). -/
def codegenInit : OptExpr → CG → Option Value × CG
  | OptExpr.some e, s => codegen e s
  | OptExpr.none, s => (some (Value.cst 0), s)

/-- The argument loop of `CallExprAST::Codegen`: lower each argument in
order, stopping at the first null. -/
def codegenArgs : ExprList → CG → Option (List Value) × CG
  | ExprList.nil, s => (some [], s)
  | ExprList.cons e rest, s =>
      match codegen e s with
      | (none, s1) => (none, s1)
      | (some v, s1) =>
          match codegenArgs rest s1 with
          | (none, s2) => (none, s2)
          | (some vs, s2) => (some (v :: vs), s2)

/-- The register-and-initialize loop of `VarExprAST::Codegen`: for each
pair, lower the initializer (or default 0.0), allocate and store, save the
old binding, install the new one.  Returns the saved `OldBindings`. -/
def codegenVars : VarList → CG → Option (List (Option Nat)) × CG
  | VarList.nil, s => (some [], s)
  | VarList.cons name init rest, s =>
      match codegenInit init s with
      | (none, s1) => (none, s1)
      | (some iv, s1) =>
          let al := newSlot s1
          let s2 := emit (Instr.store iv al.1) al.2
          let p := nvIndex s2.namedValues name
          let s3 : CG := { s2 with namedValues := nvAssign name (some al.1) p.2 }
          match codegenVars rest s3 with
          | (none, s4) => (none, s4)
          | (some olds, s4) => (some (p.1 :: olds), s4)
end

/-!  A fuelled mirror of `codegen`, used to evaluate the lowering on
concrete programs: the mirror recurses structurally on the fuel, which the
kernel reduces quickly, and an agreement theorem identifies it with
`codegen` whenever the fuel covers the expression's size. -/

/-- One unit of lowering work for the fuelled mirror. -/
inductive CGTask where
  | exprT (e : ExprAST)
  | stepT (o : OptExpr)
  | initT (o : OptExpr)
  | argsT (as : ExprList)
  | varsT (vs : VarList)

/-- The tagged result of one `CGTask`. -/
inductive CGRes where
  | val (v : Option Value)
  | vlist (vs : Option (List Value))
  | olist (os : Option (List (Option Nat)))

/-- Untag an expression-lowering result. -/
def CGRes.asVal : CGRes → Option Value
  | CGRes.val v => v
  | _ => none

/-- Untag an argument-list result. -/
def CGRes.asVList : CGRes → Option (List Value)
  | CGRes.vlist vs => vs
  | _ => none

/-- Untag a block-bindings result. -/
def CGRes.asOList : CGRes → Option (List (Option Nat))
  | CGRes.olist os => os
  | _ => none

/-- Tag an expression-lowering result (used to state the agreement between
`codegen` and its fuelled mirror). -/
def wrapV (p : Option Value × CG) : CGRes × CG := (CGRes.val p.1, p.2)

/-- Tag an argument-list result. -/
def wrapVL (p : Option (List Value) × CG) : CGRes × CG := (CGRes.vlist p.1, p.2)

/-- Tag a block-bindings result. -/
def wrapOL (p : Option (List (Option Nat)) × CG) : CGRes × CG := (CGRes.olist p.1, p.2)

mutual
/-- Structural size of an expression, bounding the fuel the mirror needs. -/
def szE : ExprAST → Nat
  | .number _ => 1
  | .varRef _ => 1
  | .unary _ o => szE o + 1
  | .binary _ l r => szE l + szE r + 1
  | .call _ args => szArgs args + 1
  | .ifE c t e => szE c + szE t + szE e + 1
  | .forE _ st en stp bd => szE st + szE en + szOpt stp + szE bd + 1
  | .varE vs bd => szVars vs + szE bd + 1

/-- Structural size of an optional child. -/
def szOpt : OptExpr → Nat
  | OptExpr.none => 1
  | OptExpr.some e => szE e + 1

/-- Structural size of an argument list. -/
def szArgs : ExprList → Nat
  | ExprList.nil => 1
  | ExprList.cons e rest => szE e + szArgs rest + 1

/-- Structural size of a bindings list. -/
def szVars : VarList → Nat
  | VarList.nil => 1
  | VarList.cons _ i rest => szOpt i + szVars rest + 1
end

/-- The fuelled mirror of `codegen` (same cases, same helpers; recursion on
the fuel). -/
def codegenF : Nat → CGTask → CG → CGRes × CG
  | 0, _, s => (CGRes.val none, s)
  | _ + 1, CGTask.exprT (.number v), s => (CGRes.val (some (Value.cst v)), s)
  | _ + 1, CGTask.exprT (.varRef name), s =>
      let p := nvIndex s.namedValues name
      let s1 : CG := { s with namedValues := p.2 }
      (match p.1 with
       | none => (CGRes.val (errorV "Unknown variable name" s1).1,
                  (errorV "Unknown variable name" s1).2)
       | some slot =>
           let l := createLoad slot s1
           (CGRes.val (some l.1), l.2))
  | fuel + 1, CGTask.exprT (.unary op operand), s =>
      let p := codegenF fuel (CGTask.exprT operand) s
      (match p.1.asVal with
       | none => (CGRes.val none, p.2)
       | some ov =>
           match getFunction p.2.module ("unary".push op) with
           | none => (CGRes.val (errorV "Unknown unary operator" p.2).1,
                      (errorV "Unknown unary operator" p.2).2)
           | some _ =>
               let c := createCall ("unary".push op) [ov] p.2
               (CGRes.val (some c.1), c.2))
  | fuel + 1, CGTask.exprT (.binary op lhs rhs), s =>
      if op = '=' then
        match lhs with
        | .varRef name =>
            let p := codegenF fuel (CGTask.exprT rhs) s
            (match p.1.asVal with
             | none => (CGRes.val none, p.2)
             | some v =>
                 let q := nvIndex p.2.namedValues name
                 let s2 : CG := { p.2 with namedValues := q.2 }
                 match q.1 with
                 | none => (CGRes.val (errorV "Unknown variable name" s2).1,
                            (errorV "Unknown variable name" s2).2)
                 | some slot => (CGRes.val (some v), emit (Instr.store v slot) s2))
        | _ => (CGRes.val (errorV "destination of '=' must be a variable" s).1,
                (errorV "destination of '=' must be a variable" s).2)
      else
        let lp := codegenF fuel (CGTask.exprT lhs) s
        let rp := codegenF fuel (CGTask.exprT rhs) lp.2
        (match lp.1.asVal, rp.1.asVal with
         | some lv, some rv =>
             let r := builtinBinOp op lv rv rp.2
             (CGRes.val r.1, r.2)
         | _, _ => (CGRes.val none, rp.2))
  | fuel + 1, CGTask.exprT (.call callee args), s =>
      (match getFunction s.module callee with
       | none => (CGRes.val (errorV "Unknown function referenced" s).1,
                  (errorV "Unknown function referenced" s).2)
       | some f =>
           if f.arity ≠ args.length then
             (CGRes.val (errorV "Incorrect # arguments passed" s).1,
              (errorV "Incorrect # arguments passed" s).2)
           else
             let p := codegenF fuel (CGTask.argsT args) s
             match p.1.asVList with
             | none => (CGRes.val none, p.2)
             | some vs =>
                 let c := createCall callee vs p.2
                 (CGRes.val (some c.1), c.2))
  | fuel + 1, CGTask.exprT (.ifE cnd thn els), s =>
      let cp := codegenF fuel (CGTask.exprT cnd) s
      (match cp.1.asVal with
       | none => (CGRes.val none, cp.2)
       | some cv =>
           let cb := createFCmpONE cv (Value.cst 0) cp.2
           let tb := newBlock cb.2
           let elseId := tb.2.nextBlock
           let mergeId := tb.2.nextBlock + 1
           let s2 : CG := { tb.2 with nextBlock := tb.2.nextBlock + 2 }
           let s3 := setTerminator (Terminator.condbr cb.1 tb.1 elseId) s2
           let s4 : CG := { s3 with curBlock := tb.1 }
           let tp := codegenF fuel (CGTask.exprT thn) s4
           match tp.1.asVal with
           | none => (CGRes.val none, tp.2)
           | some tv =>
               let s6 := setTerminator (Terminator.br mergeId) tp.2
               let thenExit := s6.curBlock
               let s7 : CG := { s6 with blocks := s6.blocks ++ [⟨elseId, [], none⟩],
                                        curBlock := elseId }
               let ep := codegenF fuel (CGTask.exprT els) s7
               match ep.1.asVal with
               | none => (CGRes.val none, ep.2)
               | some ev =>
                   let s9 := setTerminator (Terminator.br mergeId) ep.2
                   let elseExit := s9.curBlock
                   let s10 : CG := { s9 with blocks := s9.blocks ++ [⟨mergeId, [], none⟩],
                                             curBlock := mergeId }
                   let ph := createPhi [(tv, thenExit), (ev, elseExit)] s10
                   (CGRes.val (some ph.1), ph.2))
  | fuel + 1, CGTask.exprT (.forE varName start endE step body), s =>
      let al := newSlot s
      let sp := codegenF fuel (CGTask.exprT start) al.2
      (match sp.1.asVal with
       | none => (CGRes.val none, sp.2)
       | some sv =>
           let s2 := emit (Instr.store sv al.1) sp.2
           let lb := newBlock s2
           let s3 := setTerminator (Terminator.br lb.1) lb.2
           let s4 : CG := { s3 with curBlock := lb.1 }
           let p := nvIndex s4.namedValues varName
           let s5 : CG := { s4 with namedValues := nvAssign varName (some al.1) p.2 }
           let bp := codegenF fuel (CGTask.exprT body) s5
           match bp.1.asVal with
           | none => (CGRes.val none, bp.2)
           | some _ =>
               let stp := codegenF fuel (CGTask.stepT step) bp.2
               match stp.1.asVal with
               | none => (CGRes.val none, stp.2)
               | some stepV =>
                   let ep := codegenF fuel (CGTask.exprT endE) stp.2
                   match ep.1.asVal with
                   | none => (CGRes.val none, ep.2)
                   | some endV =>
                       let cur := createLoad al.1 ep.2
                       let nxt := createFAdd cur.1 stepV cur.2
                       let s9 := emit (Instr.store nxt.1 al.1) nxt.2
                       let eb := createFCmpONE endV (Value.cst 0) s9
                       let ab := newBlock eb.2
                       let s10 := setTerminator (Terminator.condbr eb.1 lb.1 ab.1) ab.2
                       let s11 : CG := { s10 with curBlock := ab.1 }
                       let s12 : CG := { s11 with namedValues :=
                         match p.1 with
                         | some h => nvAssign varName (some h) s11.namedValues
                         | none => nvErase varName s11.namedValues }
                       (CGRes.val (some (Value.cst 0)), s12))
  | fuel + 1, CGTask.exprT (.varE vars body), s =>
      let vp := codegenF fuel (CGTask.varsT vars) s
      (match vp.1.asOList with
       | none => (CGRes.val none, vp.2)
       | some olds =>
           let bp := codegenF fuel (CGTask.exprT body) vp.2
           match bp.1.asVal with
           | none => (CGRes.val none, bp.2)
           | some bv =>
               (CGRes.val (some bv),
                { bp.2 with namedValues := nvRestore vars olds bp.2.namedValues }))
  | _ + 1, CGTask.stepT OptExpr.none, s => (CGRes.val (some (Value.cst 1)), s)
  | fuel + 1, CGTask.stepT (OptExpr.some e), s =>
      let p := codegenF fuel (CGTask.exprT e) s
      (CGRes.val p.1.asVal, p.2)
  | _ + 1, CGTask.initT OptExpr.none, s => (CGRes.val (some (Value.cst 0)), s)
  | fuel + 1, CGTask.initT (OptExpr.some e), s =>
      let p := codegenF fuel (CGTask.exprT e) s
      (CGRes.val p.1.asVal, p.2)
  | _ + 1, CGTask.argsT ExprList.nil, s => (CGRes.vlist (some []), s)
  | fuel + 1, CGTask.argsT (ExprList.cons e rest), s =>
      let p := codegenF fuel (CGTask.exprT e) s
      (match p.1.asVal with
       | none => (CGRes.vlist none, p.2)
       | some v =>
           let q := codegenF fuel (CGTask.argsT rest) p.2
           match q.1.asVList with
           | none => (CGRes.vlist none, q.2)
           | some vs => (CGRes.vlist (some (v :: vs)), q.2))
  | _ + 1, CGTask.varsT VarList.nil, s => (CGRes.olist (some []), s)
  | fuel + 1, CGTask.varsT (VarList.cons name init rest), s =>
      let ip := codegenF fuel (CGTask.initT init) s
      (match ip.1.asVal with
       | none => (CGRes.olist none, ip.2)
       | some iv =>
           let al := newSlot ip.2
           let s2 := emit (Instr.store iv al.1) al.2
           let p := nvIndex s2.namedValues name
           let s3 : CG := { s2 with namedValues := nvAssign name (some al.1) p.2 }
           let q := codegenF fuel (CGTask.varsT rest) s3
           match q.1.asOList with
           | none => (CGRes.olist none, q.2)
           | some olds => (CGRes.olist (some (p.1 :: olds)), q.2))

/-- Modelled from the spec: the operator-role tag of a prototype.  The
repository's ASTNodes.h (which declares `isBinaryOp`, `getOperatorName` and
`getBinaryPrecedence`) is not under src/, so the tag {none, unary-operator,
binary-operator(precedence)} of specification §3 is carried explicitly,
together with the single-character operator symbol the accessors derive from
the mangled name. -/
inductive OpRole where
  | none
  | unaryOp (symbol : Char)
  | binaryOp (symbol : Char) (prec : Int)
deriving DecidableEq

/-- A prototype: function name, ordered formal-parameter names, operator
role (see `OpRole` for the spec-modelled part). -/
structure PrototypeAST where
  name : String
  args : List String
  role : OpRole

/-- `PrototypeAST::Codegen` from ASTNodes.cpp: create the function; on a
name conflict erase the new one, reject a redefinition (existing body) or an
arity change, otherwise reuse the existing declaration.  Returns the
function (by name) or null. -/
def protoCodegen (p : PrototypeAST) (s : CG) : Option String × CG :=
  match getFunction s.module p.name with
  | none =>
      (some p.name, { s with module := setFunction s.module p.name ⟨p.args.length, []⟩ })
  | some f =>
      if f.blocks ≠ [] then
        (none, { s with errors := s.errors ++ ["redefinition of function"] })
      else if f.arity ≠ p.args.length then
        (none, { s with errors := s.errors ++ ["redefinition of function with different # args"] })
      else (some p.name, s)

/-- `PrototypeAST::CreateArgumentAllocas`: an alloca per argument, store the
incoming argument value, register the name in `NamedValues`. -/
def createArgumentAllocas : List String → Nat → CG → CG
  | [], _, s => s
  | a :: rest, idx, s =>
      let al := newSlot s
      let s1 := emit (Instr.store (Value.arg idx) al.1) al.2
      let s2 : CG := { s1 with namedValues := nvAssign a (some al.1) s1.namedValues }
      createArgumentAllocas rest (idx + 1) s2

/-- `FunctionAST::Codegen`: clear `NamedValues`, codegen the prototype,
install a binary operator's precedence, build the entry block and the
argument allocas, lower the body; on success emit the return and finish the
function (verification and the optimizer pipeline are external
collaborators); on failure erase the function from the module and retract
the operator from `Token::BinopPrecedence`. -/
def funcCodegen (p : PrototypeAST) (body : ExprAST) (s : CG) : Option String × CG :=
  let s0 : CG := { s with namedValues := fun _ => none }
  match protoCodegen p s0 with
  | (none, s1) => (none, s1)
  | (some fname, s1) =>
      let s2 : CG :=
        match p.role with
        | OpRole.binaryOp sym prec =>
            { s1 with binopPrec := fun c => if c = sym then some prec else s1.binopPrec c }
        | _ => s1
      -- The builder's block list holds the function under construction.
      let s3 : CG := { s2 with blocks := [] }
      let eb := newBlock s3
      let s4 : CG := { eb.2 with curBlock := eb.1 }
      let s5 := createArgumentAllocas p.args 0 s4
      match codegen body s5 with
      | (some rv, s6) =>
          let s7 := setTerminator (Terminator.ret rv) s6
          (some fname,
           { s7 with module := setFunction s7.module fname ⟨p.args.length, s7.blocks⟩ })
      | (none, s6) =>
          let s7 : CG := { s6 with module := eraseFunction s6.module fname }
          let s8 : CG :=
            match p.role with
            | OpRole.binaryOp sym _ =>
                { s7 with binopPrec := fun c => if c = sym then none else s7.binopPrec c }
            | _ => s7
          (none, s8)

/-- The fuelled mirror of `funcCodegen` (same steps, body lowered through
`codegenF`). -/
def funcCodegenF (fuel : Nat) (p : PrototypeAST) (body : ExprAST) (s : CG) :
    Option String × CG :=
  let s0 : CG := { s with namedValues := fun _ => none }
  match protoCodegen p s0 with
  | (none, s1) => (none, s1)
  | (some fname, s1) =>
      let s2 : CG :=
        match p.role with
        | OpRole.binaryOp sym prec =>
            { s1 with binopPrec := fun c => if c = sym then some prec else s1.binopPrec c }
        | _ => s1
      let s3 : CG := { s2 with blocks := [] }
      let eb := newBlock s3
      let s4 : CG := { eb.2 with curBlock := eb.1 }
      let s5 := createArgumentAllocas p.args 0 s4
      let bp := codegenF fuel (CGTask.exprT body) s5
      match bp.1.asVal with
      | some rv =>
          let s7 := setTerminator (Terminator.ret rv) bp.2
          (some fname,
           { s7 with module := setFunction s7.module fname ⟨p.args.length, s7.blocks⟩ })
      | none =>
          let s7 : CG := { bp.2 with module := eraseFunction bp.2.module fname }
          let s8 : CG :=
            match p.role with
            | OpRole.binaryOp sym _ =>
                { s7 with binopPrec := fun c => if c = sym then none else s7.binopPrec c }
            | _ => s7
          (none, s8)

/-!  The executor for the emitted IR.  It evaluates a module function on
argument values, with a per-invocation memory for the stack slots, a
register environment, and a trace of the calls made to declared-only
(external) functions such as `putchard`.  Execution is fuelled; `none`
means the fuel ran out or the IR was ill-formed. -/

/-- Evaluate an operand: constant, register, or formal argument. -/
def evalV (env : Nat → ℚ) (args : List ℚ) : Value → ℚ
  | Value.cst q => q
  | Value.reg r => env r
  | Value.arg i => args.getD i 0

/-- Calls made to external (body-less) functions during execution. -/
abbrev Trace := List (String × List ℚ)

/-- Find a basic block by label. -/
def findBlock : List Block → Nat → Option Block
  | [], _ => none
  | b :: rest, id => if b.id = id then some b else findBlock rest id

/-- Pointwise function update for environments and memories. -/
def updF (f : Nat → ℚ) (k : Nat) (v : ℚ) : Nat → ℚ :=
  fun n => if n = k then v else f n

/-- The value a phi node takes coming from block `prev`. -/
def phiVal (env : Nat → ℚ) (args : List ℚ) (prev : Nat) : List (Value × Nat) → ℚ
  | [] => 0
  | (v, b) :: rest => if b = prev then evalV env args v else phiVal env args prev rest

/-- A pending unit of work for the executor: enter a function, enter a
basic block, or run the remaining instructions of a block and then its
terminator. -/
inductive ExecTask where
  | callT (name : String) (args : List ℚ) (tr : Trace)
  | blockT (f : Func) (args : List ℚ) (env mem : Nat → ℚ) (tr : Trace) (prev cur : Nat)
  | stepT (f : Func) (args : List ℚ) (env mem : Nat → ℚ) (tr : Trace) (cur : Nat)
      (prev : Nat) (instrs : List Instr) (term : Option Terminator)

/-- The fuelled executor.  Entering a declaration-only (external) function
records the call in the trace and returns 0 (`putchard` prints its argument
and returns 0.0). -/
def exec (mod : List (String × Func)) : Nat → ExecTask → Option (ℚ × Trace)
  | 0, _ => none
  | fuel + 1, ExecTask.callT name args tr =>
      match getFunction mod name with
      | none => none
      | some f =>
          match f.blocks with
          | [] => some (0, tr ++ [(name, args)])
          | b :: _ => exec mod fuel (ExecTask.blockT f args (fun _ => 0) (fun _ => 0) tr 0 b.id)
  | fuel + 1, ExecTask.blockT f args env mem tr prev cur =>
      match findBlock f.blocks cur with
      | none => none
      | some b => exec mod fuel (ExecTask.stepT f args env mem tr cur prev b.instrs b.term)
  | fuel + 1, ExecTask.stepT f args env mem tr cur _ [] term =>
      (match term with
       | none => none
       | some (Terminator.ret v) => some (evalV env args v, tr)
       | some (Terminator.br t) => exec mod fuel (ExecTask.blockT f args env mem tr cur t)
       | some (Terminator.condbr c tB eB) =>
           exec mod fuel (ExecTask.blockT f args env mem tr cur
             (if evalV env args c ≠ 0 then tB else eB)))
  | fuel + 1, ExecTask.stepT f args env mem tr cur prev (i :: rest) term =>
      (match i with
       | Instr.load dst slot =>
           exec mod fuel (ExecTask.stepT f args (updF env dst (mem slot)) mem tr cur prev rest term)
       | Instr.store v slot =>
           exec mod fuel (ExecTask.stepT f args env (updF mem slot (evalV env args v)) tr cur prev rest term)
       | Instr.fadd dst l r =>
           exec mod fuel (ExecTask.stepT f args
             (updF env dst (evalV env args l + evalV env args r)) mem tr cur prev rest term)
       | Instr.fsub dst l r =>
           exec mod fuel (ExecTask.stepT f args
             (updF env dst (evalV env args l - evalV env args r)) mem tr cur prev rest term)
       | Instr.fmul dst l r =>
           exec mod fuel (ExecTask.stepT f args
             (updF env dst (evalV env args l * evalV env args r)) mem tr cur prev rest term)
       | Instr.fcmpult dst l r =>
           exec mod fuel (ExecTask.stepT f args
             (updF env dst (if evalV env args l < evalV env args r then 1 else 0)) mem tr cur prev rest term)
       | Instr.fcmpone dst l r =>
           exec mod fuel (ExecTask.stepT f args
             (updF env dst (if evalV env args l ≠ evalV env args r then 1 else 0)) mem tr cur prev rest term)
       | Instr.uitofp dst v =>
           exec mod fuel (ExecTask.stepT f args (updF env dst (evalV env args v)) mem tr cur prev rest term)
       | Instr.phi dst incoming =>
           exec mod fuel (ExecTask.stepT f args
             (updF env dst (phiVal env args prev incoming)) mem tr cur prev rest term)
       | Instr.callI dst callee cargs =>
           match exec mod fuel (ExecTask.callT callee (cargs.map (evalV env args)) tr) with
           | none => none
           | some (rv, tr1) =>
               exec mod fuel (ExecTask.stepT f args (updF env dst rv) mem tr1 cur prev rest term))

/-- Execute a module function on argument values. -/
def execFunc (mod : List (String × Func)) (fuel : Nat) (name : String)
    (args : List ℚ) (tr : Trace) : Option (ℚ × Trace) :=
  exec mod fuel (ExecTask.callT name args tr)

/-- The built-in precedence table installed by Driver.cpp lines 85-89. -/
def initPrec : Char → Option Int := fun c =>
  if c = '=' then some 2
  else if c = '<' then some 10
  else if c = '+' then some 20
  else if c = '-' then some 20
  else if c = '*' then some 40
  else none

/-- The state at the start of a driver run: empty module, empty scope
table, the built-in precedences. -/
def st0 : CG :=
  { module := [], namedValues := fun _ => none, binopPrec := initPrec,
    blocks := [], curBlock := 0, nextReg := 0, nextSlot := 0, nextBlock := 0,
    errors := [] }

/-!  Concrete top-level forms used by the claims.  Top-level expressions are
wrapped in an anonymous no-argument function by the (out-of-scope) parser
before reaching `FunctionAST::Codegen`. -/

/-- The `extern putchard(x)` declaration of the builtin. -/
def putchardDecl : PrototypeAST := ⟨"putchard", ["x"], OpRole.none⟩

/-- Driver state after declaring `putchard`. -/
def stP : CG := (protoCodegen putchardDecl st0).2

/-- The spec's loop example `for i = 1, i < 4, 1.0 in putchard(i)`. -/
def loop134 : ExprAST :=
  ExprAST.forE "i" (ExprAST.number 1)
    (ExprAST.binary '<' (ExprAST.varRef "i") (ExprAST.number 4))
    (OptExpr.some (ExprAST.number 1))
    (ExprAST.call "putchard" (ExprList.cons (ExprAST.varRef "i") ExprList.nil))

/-- The anonymous prototype wrapping a top-level expression. -/
def anonProto : PrototypeAST := ⟨"", [], OpRole.none⟩

/-- State after lowering the loop example as a top-level form. -/
def stLoop : CG := (funcCodegen anonProto loop134 stP).2

/-- Running the lowered loop example. -/
def loopRun : Option (ℚ × Trace) := execFunc stLoop.module 100 "" [] []

/-- A named no-argument prototype for top-level test forms. -/
def tProto : PrototypeAST := ⟨"t", [], OpRole.none⟩

/-- `var a = c in (var a = a in a)` (the spec's shadowed-initializer
example, with the literal generalized). -/
def shadowProg (c : ℚ) : ExprAST :=
  ExprAST.varE (VarList.cons "a" (OptExpr.some (ExprAST.number c)) VarList.nil)
    (ExprAST.varE (VarList.cons "a" (OptExpr.some (ExprAST.varRef "a")) VarList.nil)
      (ExprAST.varRef "a"))

/-- `var a = c, b = a in b`: the second initializer names the first binding
of the same block. -/
def siblingProg (c : ℚ) : ExprAST :=
  ExprAST.varE
    (VarList.cons "a" (OptExpr.some (ExprAST.number c))
      (VarList.cons "b" (OptExpr.some (ExprAST.varRef "a")) VarList.nil))
    (ExprAST.varRef "b")

/-- `var b = a in b` with no `a` in scope at all. -/
def unboundInitProg : ExprAST :=
  ExprAST.varE (VarList.cons "b" (OptExpr.some (ExprAST.varRef "a")) VarList.nil)
    (ExprAST.varRef "b")

/-- A state with one open (empty) basic block for lowering bare
expressions, as inside a function body. -/
def stBlk : CG := { st0 with blocks := [⟨0, [], Option.none⟩] }

/-- `var x = 1, x = 2 in 3`: a scoped-binding block with duplicate names. -/
def dupProg : ExprAST :=
  ExprAST.varE
    (VarList.cons "x" (OptExpr.some (ExprAST.number 1))
      (VarList.cons "x" (OptExpr.some (ExprAST.number 2)) VarList.nil))
    (ExprAST.number 3)

/-- A user-defined binary operator prototype `binary@`, precedence 5. -/
def opProto : PrototypeAST := ⟨"binary@", ["x", "y"], OpRole.binaryOp '@' 5⟩

/-- `def foo(x) x`. -/
def fooProto : PrototypeAST := ⟨"foo", ["x"], OpRole.none⟩

/-- A loop whose body re-shadows the loop variable and then fails:
`for i = 1, 1 in (var i = 2 in nope)`. -/
def reshadowFailFor : ExprAST :=
  ExprAST.forE "i" (ExprAST.number 1) (ExprAST.number 1) OptExpr.none
    (ExprAST.varE (VarList.cons "i" (OptExpr.some (ExprAST.number 2)) VarList.nil)
      (ExprAST.varRef "nope"))

/-- `var x = 1 in x`: a single-binding block over a fresh name. -/
def sentinelProg : ExprAST :=
  ExprAST.varE (VarList.cons "x" (OptExpr.some (ExprAST.number 1)) VarList.nil)
    (ExprAST.varRef "x")

/-- `for i = 1, 1 in 5`: a trivially terminating loop over a fresh name. -/
def trivialFor : ExprAST :=
  ExprAST.forE "i" (ExprAST.number 1) (ExprAST.number 1) OptExpr.none (ExprAST.number 5)

/-- `for i = 1, 1 in nope`: a loop whose body fails directly. -/
def failFor : ExprAST :=
  ExprAST.forE "i" (ExprAST.number 1) (ExprAST.number 1) OptExpr.none (ExprAST.varRef "nope")

/-- A module holding a defined `foo(x)` (one block) and a declared-only
`bar(x, y)`. -/
def stTwo : CG :=
  { st0 with module := [("foo", ⟨1, [⟨0, [], Option.none⟩]⟩), ("bar", ⟨2, []⟩)] }

/-- A state with `x` bound to stack slot 0, for exercising assignment. -/
def stV : CG := { stBlk with namedValues := nvAssign "x" (some 0) stBlk.namedValues }

/-- The state in which a counted loop's body is lowered, as built by
`ForExprAST::Codegen` after the start value succeeded: store the start
value to the loop's alloca, open the loop block, branch into it, save the
shadowed binding (default-inserting) and install the loop variable. -/
def forBodyState (varName : String) (sv : Value) (al : Nat) (s1 : CG) : CG :=
  let s2 := emit (Instr.store sv al) s1
  let lb := newBlock s2
  let s3 := setTerminator (Terminator.br lb.1) lb.2
  let s4 : CG := { s3 with curBlock := lb.1 }
  { s4 with namedValues := nvAssign varName (some al) (nvIndex s4.namedValues varName).2 }

/-- The state in which the pairs after a scoped-binding pair are lowered,
as built by the register-and-initialize loop of `VarExprAST::Codegen` once
the pair's initializer has succeeded with value `iv` in state `s1`:
allocate, store the initial value, save the shadowed binding
(default-inserting) and install the pair's name.  In particular every later
initializer of the same block is lowered in a scope already holding this
pair's binding. -/
def varsStepState (name : String) (iv : Value) (s1 : CG) : CG :=
  let al := newSlot s1
  let s2 := emit (Instr.store iv al.1) al.2
  { s2 with namedValues := nvAssign name (some al.1) (nvIndex s2.namedValues name).2 }

/-- Pairwise distinctness of a name list (decidably). -/
def distinctNames : List String → Bool
  | [] => true
  | n :: rest => (if n ∈ rest then false else true) && distinctNames rest

mutual
/-- Well-formedness for the scope-restoration law: every scoped-binding
block in the expression binds pairwise-distinct names. -/
def wfE : ExprAST → Bool
  | .number _ => true
  | .varRef _ => true
  | .unary _ o => wfE o
  | .binary _ l r => wfE l && wfE r
  | .call _ args => wfArgs args
  | .ifE c t e => wfE c && wfE t && wfE e
  | .forE _ st en stp bd => wfE st && wfE en && wfOpt stp && wfE bd
  | .varE vs bd => distinctNames vs.names && wfVarInits vs && wfE bd

/-- Well-formedness of an optional child. -/
def wfOpt : OptExpr → Bool
  | OptExpr.none => true
  | OptExpr.some e => wfE e

/-- Well-formedness of every call argument. -/
def wfArgs : ExprList → Bool
  | ExprList.nil => true
  | ExprList.cons e rest => wfE e && wfArgs rest

/-- Well-formedness of every initializer of a block. -/
def wfVarInits : VarList → Bool
  | VarList.nil => true
  | VarList.cons _ init rest => wfOpt init && wfVarInits rest
end

/-- Two codegen states are observationally equivalent when every component
agrees except that the scope tables need only agree up to the
null-collapsed view that `operator[]` plus the null check exposes: a name
bound to the null pointer and an absent name have the same view. -/
def CGEquiv (s1 s2 : CG) : Prop :=
  s2 = { s1 with namedValues := s2.namedValues } ∧
  ∀ y, (s1.namedValues y).join = (s2.namedValues y).join

/-!  Lemmas about the scope table. -/

theorem nvIndex_fst (t : String → Option (Option Nat)) (x : String) :
    (nvIndex t x).1 = (t x).join := by
  unfold nvIndex
  cases h : t x <;> simp [h]

theorem nvIndex_snd_join (t : String → Option (Option Nat)) (x y : String) :
    ((nvIndex t x).2 y).join = (t y).join := by
  unfold nvIndex
  cases h : t x
  · by_cases hy : y = x <;> simp [hy, h]
  · simp [h]

theorem nvAssign_join (x : String) (v : Option Nat) (t : String → Option (Option Nat))
    (y : String) :
    (nvAssign x v t y).join = if y = x then v else (t y).join := by
  unfold nvAssign
  by_cases hy : y = x <;> simp [hy]

theorem nvErase_join (x : String) (t : String → Option (Option Nat)) (y : String) :
    (nvErase x t y).join = if y = x then none else (t y).join := by
  unfold nvErase
  by_cases hy : y = x <;> simp [hy]

theorem getFunction_erase (m : List (String × Func)) (x : String) :
    getFunction (eraseFunction m x) x = none := by
  induction m with
  | nil => rfl
  | cons p rest ih =>
      obtain ⟨n, g⟩ := p
      unfold eraseFunction
      by_cases h : n = x
      · simpa [h] using ih
      · simpa [getFunction, h] using ih

/-!  Unfolding equations for `codegen` and its companions.  The mutual
recursion over the mutual AST compiles through the recursor, for which Lean
does not auto-generate equation lemmas; each case reduces definitionally,
so the equations are stated once and proved by `rfl`. -/

theorem codegen_number (v : ℚ) (s : CG) :
    codegen (ExprAST.number v) s = (some (Value.cst v), s) := rfl

theorem codegen_varRef (name : String) (s : CG) :
    codegen (ExprAST.varRef name) s =
      (match (nvIndex s.namedValues name).1 with
       | none => errorV "Unknown variable name"
           { s with namedValues := (nvIndex s.namedValues name).2 }
       | some slot =>
           (some (createLoad slot { s with namedValues := (nvIndex s.namedValues name).2 }).1,
            (createLoad slot { s with namedValues := (nvIndex s.namedValues name).2 }).2)) := rfl

theorem codegen_unary (op : Char) (operand : ExprAST) (s : CG) :
    codegen (ExprAST.unary op operand) s =
      (match codegen operand s with
       | (none, s1) => (none, s1)
       | (some ov, s1) =>
           match getFunction s1.module ("unary".push op) with
           | none => errorV "Unknown unary operator" s1
           | some _ =>
               (some (createCall ("unary".push op) [ov] s1).1,
                (createCall ("unary".push op) [ov] s1).2)) := rfl

theorem codegen_binary (op : Char) (lhs rhs : ExprAST) (s : CG) :
    codegen (ExprAST.binary op lhs rhs) s =
      (if op = '=' then
        match lhs with
        | ExprAST.varRef name =>
            (match codegen rhs s with
             | (none, s1) => (none, s1)
             | (some v, s1) =>
                 match (nvIndex s1.namedValues name).1 with
                 | none => errorV "Unknown variable name"
                     { s1 with namedValues := (nvIndex s1.namedValues name).2 }
                 | some slot =>
                     (some v, emit (Instr.store v slot)
                        { s1 with namedValues := (nvIndex s1.namedValues name).2 }))
        | _ => errorV "destination of '=' must be a variable" s
      else
        match (codegen lhs s).1, (codegen rhs (codegen lhs s).2).1 with
        | some lv, some rv => builtinBinOp op lv rv (codegen rhs (codegen lhs s).2).2
        | _, _ => (none, (codegen rhs (codegen lhs s).2).2)) := rfl

theorem codegen_call (callee : String) (args : ExprList) (s : CG) :
    codegen (ExprAST.call callee args) s =
      (match getFunction s.module callee with
       | none => errorV "Unknown function referenced" s
       | some f =>
           if f.arity ≠ args.length then errorV "Incorrect # arguments passed" s
           else
             match codegenArgs args s with
             | (none, s1) => (none, s1)
             | (some vs, s1) =>
                 (some (createCall callee vs s1).1, (createCall callee vs s1).2)) := rfl

theorem codegen_ifE (cnd thn els : ExprAST) (s : CG) :
    codegen (ExprAST.ifE cnd thn els) s =
      (match codegen cnd s with
       | (none, s1) => (none, s1)
       | (some cv, s1) =>
           let cb := createFCmpONE cv (Value.cst 0) s1
           let tb := newBlock cb.2
           let elseId := tb.2.nextBlock
           let mergeId := tb.2.nextBlock + 1
           let s2 : CG := { tb.2 with nextBlock := tb.2.nextBlock + 2 }
           let s3 := setTerminator (Terminator.condbr cb.1 tb.1 elseId) s2
           let s4 : CG := { s3 with curBlock := tb.1 }
           match codegen thn s4 with
           | (none, s5) => (none, s5)
           | (some tv, s5) =>
               let s6 := setTerminator (Terminator.br mergeId) s5
               let thenExit := s6.curBlock
               let s7 : CG := { s6 with blocks := s6.blocks ++ [⟨elseId, [], none⟩],
                                        curBlock := elseId }
               match codegen els s7 with
               | (none, s8) => (none, s8)
               | (some ev, s8) =>
                   let s9 := setTerminator (Terminator.br mergeId) s8
                   let elseExit := s9.curBlock
                   let s10 : CG := { s9 with blocks := s9.blocks ++ [⟨mergeId, [], none⟩],
                                             curBlock := mergeId }
                   let ph := createPhi [(tv, thenExit), (ev, elseExit)] s10
                   (some ph.1, ph.2)) := rfl

theorem codegen_forE (varName : String) (start endE : ExprAST) (step : OptExpr)
    (body : ExprAST) (s : CG) :
    codegen (ExprAST.forE varName start endE step body) s =
      (let al := newSlot s
       match codegen start al.2 with
       | (none, s1) => (none, s1)
       | (some sv, s1) =>
           let s2 := emit (Instr.store sv al.1) s1
           let lb := newBlock s2
           let s3 := setTerminator (Terminator.br lb.1) lb.2
           let s4 : CG := { s3 with curBlock := lb.1 }
           let p := nvIndex s4.namedValues varName
           let s5 : CG := { s4 with namedValues := nvAssign varName (some al.1) p.2 }
           match codegen body s5 with
           | (none, s6) => (none, s6)
           | (some _, s6) =>
               match codegenStep step s6 with
               | (none, s7) => (none, s7)
               | (some stepV, s7) =>
                   match codegen endE s7 with
                   | (none, s8) => (none, s8)
                   | (some endV, s8) =>
                       let cur := createLoad al.1 s8
                       let nxt := createFAdd cur.1 stepV cur.2
                       let s9 := emit (Instr.store nxt.1 al.1) nxt.2
                       let eb := createFCmpONE endV (Value.cst 0) s9
                       let ab := newBlock eb.2
                       let s10 := setTerminator (Terminator.condbr eb.1 lb.1 ab.1) ab.2
                       let s11 : CG := { s10 with curBlock := ab.1 }
                       let s12 : CG := { s11 with namedValues :=
                         match p.1 with
                         | some h => nvAssign varName (some h) s11.namedValues
                         | none => nvErase varName s11.namedValues }
                       (some (Value.cst 0), s12)) := rfl

theorem codegen_varE (vars : VarList) (body : ExprAST) (s : CG) :
    codegen (ExprAST.varE vars body) s =
      (match codegenVars vars s with
       | (none, s1) => (none, s1)
       | (some olds, s1) =>
           match codegen body s1 with
           | (none, s2) => (none, s2)
           | (some bv, s2) =>
               (some bv, { s2 with namedValues := nvRestore vars olds s2.namedValues })) := rfl

theorem codegenArgs_nil (s : CG) : codegenArgs ExprList.nil s = (some [], s) := rfl

theorem codegenArgs_cons (e : ExprAST) (rest : ExprList) (s : CG) :
    codegenArgs (ExprList.cons e rest) s =
      (match codegen e s with
       | (none, s1) => (none, s1)
       | (some v, s1) =>
           match codegenArgs rest s1 with
           | (none, s2) => (none, s2)
           | (some vs, s2) => (some (v :: vs), s2)) := rfl

/-!  Congruence of the builder operations with respect to `CGEquiv`: none
of them reads the scope table, so they commute with changing it to any
join-equivalent one. -/

theorem errorV_equiv (msg : String) {s1 s2 : CG} (h : CGEquiv s1 s2) :
    CGEquiv (errorV msg s1).2 (errorV msg s2).2 := by
  rw [h.1]; exact ⟨rfl, h.2⟩

theorem emit_equiv (i : Instr) {s1 s2 : CG} (h : CGEquiv s1 s2) :
    CGEquiv (emit i s1) (emit i s2) := by
  rw [h.1]; exact ⟨rfl, h.2⟩

theorem setTerminator_equiv (t : Terminator) {s1 s2 : CG} (h : CGEquiv s1 s2) :
    CGEquiv (setTerminator t s1) (setTerminator t s2) := by
  rw [h.1]; exact ⟨rfl, h.2⟩

theorem newBlock_equiv {s1 s2 : CG} (h : CGEquiv s1 s2) :
    (newBlock s2).1 = (newBlock s1).1 ∧ CGEquiv (newBlock s1).2 (newBlock s2).2 := by
  rw [h.1]; exact ⟨rfl, rfl, h.2⟩

theorem newSlot_equiv {s1 s2 : CG} (h : CGEquiv s1 s2) :
    (newSlot s2).1 = (newSlot s1).1 ∧ CGEquiv (newSlot s1).2 (newSlot s2).2 := by
  rw [h.1]; exact ⟨rfl, rfl, h.2⟩

theorem createLoad_equiv (slot : Nat) {s1 s2 : CG} (h : CGEquiv s1 s2) :
    (createLoad slot s2).1 = (createLoad slot s1).1 ∧
    CGEquiv (createLoad slot s1).2 (createLoad slot s2).2 := by
  rw [h.1]; exact ⟨rfl, rfl, h.2⟩

theorem createFAdd_equiv (l r : Value) {s1 s2 : CG} (h : CGEquiv s1 s2) :
    (createFAdd l r s2).1 = (createFAdd l r s1).1 ∧
    CGEquiv (createFAdd l r s1).2 (createFAdd l r s2).2 := by
  rw [h.1]; exact ⟨rfl, rfl, h.2⟩

theorem createFSub_equiv (l r : Value) {s1 s2 : CG} (h : CGEquiv s1 s2) :
    (createFSub l r s2).1 = (createFSub l r s1).1 ∧
    CGEquiv (createFSub l r s1).2 (createFSub l r s2).2 := by
  rw [h.1]; exact ⟨rfl, rfl, h.2⟩

theorem createFMul_equiv (l r : Value) {s1 s2 : CG} (h : CGEquiv s1 s2) :
    (createFMul l r s2).1 = (createFMul l r s1).1 ∧
    CGEquiv (createFMul l r s1).2 (createFMul l r s2).2 := by
  rw [h.1]; exact ⟨rfl, rfl, h.2⟩

theorem createFCmpULT_equiv (l r : Value) {s1 s2 : CG} (h : CGEquiv s1 s2) :
    (createFCmpULT l r s2).1 = (createFCmpULT l r s1).1 ∧
    CGEquiv (createFCmpULT l r s1).2 (createFCmpULT l r s2).2 := by
  rw [h.1]; exact ⟨rfl, rfl, h.2⟩

theorem createFCmpONE_equiv (l r : Value) {s1 s2 : CG} (h : CGEquiv s1 s2) :
    (createFCmpONE l r s2).1 = (createFCmpONE l r s1).1 ∧
    CGEquiv (createFCmpONE l r s1).2 (createFCmpONE l r s2).2 := by
  rw [h.1]; exact ⟨rfl, rfl, h.2⟩

theorem createUIToFP_equiv (v : Value) {s1 s2 : CG} (h : CGEquiv s1 s2) :
    (createUIToFP v s2).1 = (createUIToFP v s1).1 ∧
    CGEquiv (createUIToFP v s1).2 (createUIToFP v s2).2 := by
  rw [h.1]; exact ⟨rfl, rfl, h.2⟩

theorem createCall_equiv (callee : String) (args : List Value) {s1 s2 : CG}
    (h : CGEquiv s1 s2) :
    (createCall callee args s2).1 = (createCall callee args s1).1 ∧
    CGEquiv (createCall callee args s1).2 (createCall callee args s2).2 := by
  rw [h.1]; exact ⟨rfl, rfl, h.2⟩

theorem createPhi_equiv (incoming : List (Value × Nat)) {s1 s2 : CG}
    (h : CGEquiv s1 s2) :
    (createPhi incoming s2).1 = (createPhi incoming s1).1 ∧
    CGEquiv (createPhi incoming s1).2 (createPhi incoming s2).2 := by
  rw [h.1]; exact ⟨rfl, rfl, h.2⟩

theorem setNV_equiv {s1 s2 : CG} {u1 u2 : String → Option (Option Nat)}
    (h : CGEquiv s1 s2) (hu : ∀ y, (u1 y).join = (u2 y).join) :
    CGEquiv { s1 with namedValues := u1 } { s2 with namedValues := u2 } := by
  rw [h.1]; exact ⟨rfl, hu⟩

theorem curBlock_equiv (c : Nat) {s1 s2 : CG} (h : CGEquiv s1 s2) :
    CGEquiv { s1 with curBlock := c } { s2 with curBlock := c } := by
  rw [h.1]; exact ⟨rfl, h.2⟩

theorem nextBlockAdd_equiv (k : Nat) {s1 s2 : CG} (h : CGEquiv s1 s2) :
    CGEquiv { s1 with nextBlock := s1.nextBlock + k }
            { s2 with nextBlock := s2.nextBlock + k } := by
  rw [h.1]; exact ⟨rfl, h.2⟩

theorem blocksApp_equiv (bs : List Block) (c : Nat) {s1 s2 : CG} (h : CGEquiv s1 s2) :
    CGEquiv { s1 with blocks := s1.blocks ++ bs, curBlock := c }
            { s2 with blocks := s2.blocks ++ bs, curBlock := c } := by
  rw [h.1]; exact ⟨rfl, h.2⟩

theorem CGEquiv.module_eq {s1 s2 : CG} (h : CGEquiv s1 s2) : s2.module = s1.module := by
  rw [h.1]

theorem CGEquiv.curBlock_eq {s1 s2 : CG} (h : CGEquiv s1 s2) : s2.curBlock = s1.curBlock := by
  rw [h.1]

theorem codegenVars_nil (s : CG) : codegenVars VarList.nil s = (some [], s) := rfl

theorem codegenStep_some (e : ExprAST) (s : CG) :
    codegenStep (OptExpr.some e) s = codegen e s := rfl

theorem codegenStep_none (s : CG) :
    codegenStep OptExpr.none s = (some (Value.cst 1), s) := rfl

theorem codegenInit_some (e : ExprAST) (s : CG) :
    codegenInit (OptExpr.some e) s = codegen e s := rfl

theorem codegenInit_none (s : CG) :
    codegenInit OptExpr.none s = (some (Value.cst 0), s) := rfl

theorem codegenVars_cons (name : String) (init : OptExpr) (rest : VarList) (s : CG) :
    codegenVars (VarList.cons name init rest) s =
      (match codegenInit init s with
       | (none, s1) => (none, s1)
       | (some iv, s1) =>
           let al := newSlot s1
           let s2 := emit (Instr.store iv al.1) al.2
           let p := nvIndex s2.namedValues name
           let s3 : CG := { s2 with namedValues := nvAssign name (some al.1) p.2 }
           match codegenVars rest s3 with
           | (none, s4) => (none, s4)
           | (some olds, s4) => (some (p.1 :: olds), s4)) := rfl

theorem builtinBinOp_equiv (op : Char) (lv rv : Value) {s1 s2 : CG} (h : CGEquiv s1 s2) :
    (builtinBinOp op lv rv s2).1 = (builtinBinOp op lv rv s1).1 ∧
    CGEquiv (builtinBinOp op lv rv s1).2 (builtinBinOp op lv rv s2).2 := by
  unfold builtinBinOp
  split
  · dsimp only
    obtain ⟨hf, hE⟩ := createFAdd_equiv lv rv h
    exact ⟨by rw [hf], hE⟩
  · dsimp only
    obtain ⟨hf, hE⟩ := createFSub_equiv lv rv h
    exact ⟨by rw [hf], hE⟩
  · dsimp only
    obtain ⟨hf, hE⟩ := createFMul_equiv lv rv h
    exact ⟨by rw [hf], hE⟩
  · dsimp only
    obtain ⟨hfc, hEc⟩ := createFCmpULT_equiv lv rv h
    obtain ⟨hfu, hEu⟩ := createUIToFP_equiv (createFCmpULT lv rv s1).1 hEc
    constructor
    · rw [hfc, hfu]
    · rw [hfc]; exact hEu
  · rw [h.module_eq]
    cases hF : getFunction s1.module ("binary".push op) with
    | none => exact ⟨rfl, h⟩
    | some f =>
        dsimp only
        obtain ⟨hf, hE⟩ := createCall_equiv ("binary".push op) [lv, rv] h
        exact ⟨by rw [hf], hE⟩


theorem CGEquiv.nextBlock_eq {s1 s2 : CG} (h : CGEquiv s1 s2) :
    s2.nextBlock = s1.nextBlock := by rw [h.1]

theorem CGEquiv.errors_eq {s1 s2 : CG} (h : CGEquiv s1 s2) :
    s2.errors = s1.errors := by rw [h.1]

theorem nvAssign_join_congr (x : String) (v : Option Nat)
    {t1 t2 : String → Option (Option Nat)}
    (h : ∀ y, (t1 y).join = (t2 y).join) :
    ∀ y, (nvAssign x v t1 y).join = (nvAssign x v t2 y).join := by
  intro y
  rw [nvAssign_join, nvAssign_join]
  by_cases hy : y = x
  · rw [if_pos hy, if_pos hy]
  · rw [if_neg hy, if_neg hy]; exact h y

theorem nvErase_join_congr (x : String) {t1 t2 : String → Option (Option Nat)}
    (h : ∀ y, (t1 y).join = (t2 y).join) :
    ∀ y, (nvErase x t1 y).join = (nvErase x t2 y).join := by
  intro y
  rw [nvErase_join, nvErase_join]
  by_cases hy : y = x
  · rw [if_pos hy, if_pos hy]
  · rw [if_neg hy, if_neg hy]; exact h y

theorem nvRestore_join_congr : ∀ (vars : VarList) (olds : List (Option Nat))
    (t1 t2 : String → Option (Option Nat)),
    (∀ y, (t1 y).join = (t2 y).join) →
    ∀ y, (nvRestore vars olds t1 y).join = (nvRestore vars olds t2 y).join
  | VarList.nil, _, _, _, h => h
  | VarList.cons _ _ _, [], _, _, h => h
  | VarList.cons name _ rest, o :: os, _, _, h =>
      nvRestore_join_congr rest os _ _ (nvAssign_join_congr name o h)

theorem nvIndexState_equiv (name : String) {s1 s2 : CG} (h : CGEquiv s1 s2) :
    (nvIndex s2.namedValues name).1 = (nvIndex s1.namedValues name).1 ∧
    CGEquiv { s1 with namedValues := (nvIndex s1.namedValues name).2 }
            { s2 with namedValues := (nvIndex s2.namedValues name).2 } := by
  constructor
  · rw [nvIndex_fst, nvIndex_fst, h.2]
  · exact setNV_equiv h fun y => by
      rw [nvIndex_snd_join, nvIndex_snd_join]; exact h.2 y


theorem nextBlockSet_equiv (n : Nat) {s1 s2 : CG} (h : CGEquiv s1 s2) :
    CGEquiv { s1 with nextBlock := n } { s2 with nextBlock := n } := by
  rw [h.1]; exact ⟨rfl, h.2⟩

theorem equiv_destruct {α : Type} {r1 r2 : α} {m1 m2 : CG} {p q : α × CG}
    (hIH : q.1 = p.1 ∧ CGEquiv p.2 q.2) (hA : p = (r1, m1)) (hB : q = (r2, m2)) :
    r1 = r2 ∧ CGEquiv m1 m2 := by
  subst hA; subst hB; exact ⟨hIH.1.symm, hIH.2⟩

mutual
theorem codegen_equiv : ∀ (e : ExprAST) (s1 s2 : CG), CGEquiv s1 s2 →
    (codegen e s2).1 = (codegen e s1).1 ∧ CGEquiv (codegen e s1).2 (codegen e s2).2
  | .number v, s1, s2, h => ⟨rfl, h⟩
  | .varRef name, s1, s2, h => by
      rw [codegen_varRef, codegen_varRef]
      obtain ⟨hi, hE⟩ := nvIndexState_equiv name h
      rw [hi]
      cases hp : (nvIndex s1.namedValues name).1 with
      | none => exact ⟨rfl, errorV_equiv _ hE⟩
      | some slot =>
          dsimp only
          obtain ⟨hlf, hlE⟩ := createLoad_equiv slot hE
          exact ⟨by rw [hlf], hlE⟩
  | .unary op operand, s1, s2, h => by
      rw [codegen_unary, codegen_unary]
      rcases hA : codegen operand s1 with ⟨r1, m1⟩
      rcases hB : codegen operand s2 with ⟨r2, m2⟩
      obtain ⟨hf, hE⟩ := equiv_destruct (codegen_equiv operand s1 s2 h) hA hB
      subst hf
      cases r1 with
      | none => exact ⟨rfl, hE⟩
      | some ov =>
          dsimp only
          rw [hE.module_eq]
          cases hF : getFunction m1.module ("unary".push op) with
          | none => exact ⟨rfl, errorV_equiv _ hE⟩
          | some f =>
              dsimp only
              obtain ⟨hcf, hcE⟩ := createCall_equiv ("unary".push op) [ov] hE
              exact ⟨by rw [hcf], hcE⟩
  | .binary op lhs rhs, s1, s2, h => by
      rw [codegen_binary, codegen_binary]
      by_cases hop : op = '='
      · rw [if_pos hop, if_pos hop]
        cases lhs with
        | varRef name =>
            dsimp only
            rcases hA : codegen rhs s1 with ⟨r1, m1⟩
            rcases hB : codegen rhs s2 with ⟨r2, m2⟩
            obtain ⟨hf, hE⟩ := equiv_destruct (codegen_equiv rhs s1 s2 h) hA hB
            subst hf
            cases r1 with
            | none => exact ⟨rfl, hE⟩
            | some v =>
                dsimp only
                obtain ⟨hi, hiE⟩ := nvIndexState_equiv name hE
                rw [hi]
                cases hp : (nvIndex m1.namedValues name).1 with
                | none => exact ⟨rfl, errorV_equiv _ hiE⟩
                | some slot =>
                    dsimp only
                    exact ⟨rfl, emit_equiv _ hiE⟩
        | number v => exact ⟨rfl, errorV_equiv _ h⟩
        | unary a b => exact ⟨rfl, errorV_equiv _ h⟩
        | binary a b c => exact ⟨rfl, errorV_equiv _ h⟩
        | call a b => exact ⟨rfl, errorV_equiv _ h⟩
        | ifE a b c => exact ⟨rfl, errorV_equiv _ h⟩
        | forE a b c d e2 => exact ⟨rfl, errorV_equiv _ h⟩
        | varE a b => exact ⟨rfl, errorV_equiv _ h⟩
      · rw [if_neg hop, if_neg hop]
        rcases hA : codegen lhs s1 with ⟨l1, m1⟩
        rcases hB : codegen lhs s2 with ⟨l2, m2⟩
        obtain ⟨hlf, hlE⟩ := equiv_destruct (codegen_equiv lhs s1 s2 h) hA hB
        subst hlf
        dsimp only
        rcases hC : codegen rhs m1 with ⟨q1, n1⟩
        rcases hD : codegen rhs m2 with ⟨q2, n2⟩
        obtain ⟨hrf, hrE⟩ := equiv_destruct (codegen_equiv rhs m1 m2 hlE) hC hD
        subst hrf
        cases l1 with
        | none =>
            cases q1 with
            | none => exact ⟨rfl, hrE⟩
            | some rv => exact ⟨rfl, hrE⟩
        | some lv =>
            cases q1 with
            | none => exact ⟨rfl, hrE⟩
            | some rv => exact builtinBinOp_equiv op lv rv hrE
  | .call callee args, s1, s2, h => by
      rw [codegen_call, codegen_call, h.module_eq]
      cases hF : getFunction s1.module callee with
      | none => exact ⟨rfl, errorV_equiv _ h⟩
      | some f =>
          dsimp only
          by_cases ha : f.arity ≠ args.length
          · rw [if_pos ha, if_pos ha]
            exact ⟨rfl, errorV_equiv _ h⟩
          · rw [if_neg ha, if_neg ha]
            rcases hA : codegenArgs args s1 with ⟨r1, m1⟩
            rcases hB : codegenArgs args s2 with ⟨r2, m2⟩
            obtain ⟨hf, hE⟩ := equiv_destruct (codegenArgs_equiv args s1 s2 h) hA hB
            subst hf
            cases r1 with
            | none => exact ⟨rfl, hE⟩
            | some vs =>
                dsimp only
                obtain ⟨hcf, hcE⟩ := createCall_equiv callee vs hE
                exact ⟨by rw [hcf], hcE⟩
  | .ifE cnd thn els, s1, s2, h => by
      rw [codegen_ifE, codegen_ifE]
      rcases hA : codegen cnd s1 with ⟨c1, m1⟩
      rcases hB : codegen cnd s2 with ⟨c2, m2⟩
      obtain ⟨hcf, hcE⟩ := equiv_destruct (codegen_equiv cnd s1 s2 h) hA hB
      subst hcf
      cases c1 with
      | none => exact ⟨rfl, hcE⟩
      | some cv =>
          dsimp only
          set cb1 := createFCmpONE cv (Value.cst 0) m1 with hcbD1
          set cb2 := createFCmpONE cv (Value.cst 0) m2 with hcbD2
          have hcb : cb2.1 = cb1.1 := (createFCmpONE_equiv cv (Value.cst 0) hcE).1
          have hcbE : CGEquiv cb1.2 cb2.2 := (createFCmpONE_equiv cv (Value.cst 0) hcE).2
          rw [hcb]
          set tb1 := newBlock cb1.2 with htbD1
          set tb2 := newBlock cb2.2 with htbD2
          have htb : tb2.1 = tb1.1 := (newBlock_equiv hcbE).1
          have htbE : CGEquiv tb1.2 tb2.2 := (newBlock_equiv hcbE).2
          rw [htb]
          have hnb : tb2.2.nextBlock = tb1.2.nextBlock := htbE.nextBlock_eq
          rw [hnb]
          set B1 := { tb1.2 with nextBlock := tb1.2.nextBlock + 2 } with hBD1
          set B2 := { tb2.2 with nextBlock := tb1.2.nextBlock + 2 } with hBD2
          have hBE : CGEquiv B1 B2 := nextBlockSet_equiv _ htbE
          set C1 := setTerminator (Terminator.condbr cb1.1 tb1.1 tb1.2.nextBlock) B1 with hCD1
          set C2 := setTerminator (Terminator.condbr cb1.1 tb1.1 tb1.2.nextBlock) B2 with hCD2
          have hCE : CGEquiv C1 C2 := setTerminator_equiv _ hBE
          set D1 := { C1 with curBlock := tb1.1 } with hDD1
          set D2 := { C2 with curBlock := tb1.1 } with hDD2
          have hDE : CGEquiv D1 D2 := curBlock_equiv _ hCE
          rcases hT1 : codegen thn D1 with ⟨t1, u1⟩
          rcases hT2 : codegen thn D2 with ⟨t2, u2⟩
          obtain ⟨htf, htE⟩ := equiv_destruct (codegen_equiv thn D1 D2 hDE) hT1 hT2
          subst htf
          cases t1 with
          | none => exact ⟨rfl, htE⟩
          | some tv =>
              dsimp only
              set F1 := setTerminator (Terminator.br (tb1.2.nextBlock + 1)) u1 with hFD1
              set F2 := setTerminator (Terminator.br (tb1.2.nextBlock + 1)) u2 with hFD2
              have hFE : CGEquiv F1 F2 := setTerminator_equiv _ htE
              have hex : F2.curBlock = F1.curBlock := hFE.curBlock_eq
              rw [hex]
              set G1 := { F1 with blocks := F1.blocks ++ [Block.mk (tb1.2.nextBlock) [] none], curBlock := tb1.2.nextBlock } with hGD1
              set G2 := { F2 with blocks := F2.blocks ++ [Block.mk (tb1.2.nextBlock) [] none], curBlock := tb1.2.nextBlock } with hGD2
              have hGE : CGEquiv G1 G2 := blocksApp_equiv _ _ hFE
              rcases hL1 : codegen els G1 with ⟨e1, w1⟩
              rcases hL2 : codegen els G2 with ⟨e2, w2⟩
              obtain ⟨hef, heE⟩ := equiv_destruct (codegen_equiv els G1 G2 hGE) hL1 hL2
              subst hef
              cases e1 with
              | none => exact ⟨rfl, heE⟩
              | some ev =>
                  dsimp only
                  set H1 := setTerminator (Terminator.br (tb1.2.nextBlock + 1)) w1 with hHD1
                  set H2 := setTerminator (Terminator.br (tb1.2.nextBlock + 1)) w2 with hHD2
                  have hHE : CGEquiv H1 H2 := setTerminator_equiv _ heE
                  have hex2 : H2.curBlock = H1.curBlock := hHE.curBlock_eq
                  rw [hex2]
                  set J1 := { H1 with blocks := H1.blocks ++ [Block.mk (tb1.2.nextBlock + 1) [] none], curBlock := tb1.2.nextBlock + 1 } with hJD1
                  set J2 := { H2 with blocks := H2.blocks ++ [Block.mk (tb1.2.nextBlock + 1) [] none], curBlock := tb1.2.nextBlock + 1 } with hJD2
                  have hJE : CGEquiv J1 J2 := blocksApp_equiv _ _ hHE
                  obtain ⟨hpf, hpE⟩ :=
                    createPhi_equiv [(tv, F1.curBlock), (ev, H1.curBlock)] hJE
                  exact ⟨by rw [hpf], hpE⟩
  | .forE varName start endE step body, s1, s2, h => by
      rw [codegen_forE, codegen_forE]
      dsimp only
      have hal : (newSlot s2).1 = (newSlot s1).1 := (newSlot_equiv h).1
      have halE : CGEquiv (newSlot s1).2 (newSlot s2).2 := (newSlot_equiv h).2
      rw [hal]
      rcases hS1 : codegen start (newSlot s1).2 with ⟨v1, m1⟩
      rcases hS2 : codegen start (newSlot s2).2 with ⟨v2, m2⟩
      obtain ⟨hvf, hvE⟩ := equiv_destruct (codegen_equiv start _ _ halE) hS1 hS2
      subst hvf
      cases v1 with
      | none => exact ⟨rfl, hvE⟩
      | some sv =>
          dsimp only
          set E1 := emit (Instr.store sv (newSlot s1).1) m1 with hED1
          set E2 := emit (Instr.store sv (newSlot s1).1) m2 with hED2
          have hemE : CGEquiv E1 E2 := emit_equiv _ hvE
          set L1 := newBlock E1 with hLD1
          set L2 := newBlock E2 with hLD2
          have hlb : L2.1 = L1.1 := (newBlock_equiv hemE).1
          have hlbE : CGEquiv L1.2 L2.2 := (newBlock_equiv hemE).2
          rw [hlb]
          set T1 := setTerminator (Terminator.br L1.1) L1.2 with hTD1
          set T2 := setTerminator (Terminator.br L1.1) L2.2 with hTD2
          have hTE : CGEquiv T1 T2 := setTerminator_equiv _ hlbE
          set U1 := { T1 with curBlock := L1.1 } with hUD1
          set U2 := { T2 with curBlock := L1.1 } with hUD2
          have hUE : CGEquiv U1 U2 := curBlock_equiv _ hTE
          have hpf : (nvIndex U2.namedValues varName).1
              = (nvIndex U1.namedValues varName).1 := by
            rw [nvIndex_fst, nvIndex_fst, hUE.2]
          rw [hpf]
          set V1 := { U1 with namedValues := nvAssign varName (some (newSlot s1).1) (nvIndex U1.namedValues varName).2 } with hVD1
          set V2 := { U2 with namedValues := nvAssign varName (some (newSlot s1).1) (nvIndex U2.namedValues varName).2 } with hVD2
          have hVE : CGEquiv V1 V2 := setNV_equiv hUE (nvAssign_join_congr _ _ fun y => by
            rw [nvIndex_snd_join, nvIndex_snd_join]; exact hUE.2 y)
          rcases hB1 : codegen body V1 with ⟨b1, w1⟩
          rcases hB2 : codegen body V2 with ⟨b2, w2⟩
          obtain ⟨hbf, hbE⟩ := equiv_destruct (codegen_equiv body V1 V2 hVE) hB1 hB2
          subst hbf
          cases b1 with
          | none => exact ⟨rfl, hbE⟩
          | some bv =>
              dsimp only
              rcases hP1 : codegenStep step w1 with ⟨p1, x1⟩
              rcases hP2 : codegenStep step w2 with ⟨p2, x2⟩
              obtain ⟨hpf2, hpE2⟩ := equiv_destruct (codegenStep_equiv step w1 w2 hbE) hP1 hP2
              subst hpf2
              cases p1 with
              | none => exact ⟨rfl, hpE2⟩
              | some stepV =>
                  dsimp only
                  rcases hQ1 : codegen endE x1 with ⟨q1, y1⟩
                  rcases hQ2 : codegen endE x2 with ⟨q2, y2⟩
                  obtain ⟨hqf, hqE⟩ := equiv_destruct (codegen_equiv endE x1 x2 hpE2) hQ1 hQ2
                  subst hqf
                  cases q1 with
                  | none => exact ⟨rfl, hqE⟩
                  | some endV =>
                      dsimp only
                      set cu1 := createLoad (newSlot s1).1 y1 with hcuD1
                      set cu2 := createLoad (newSlot s1).1 y2 with hcuD2
                      have hcu : cu2.1 = cu1.1 := (createLoad_equiv _ hqE).1
                      have hcuE : CGEquiv cu1.2 cu2.2 := (createLoad_equiv _ hqE).2
                      rw [hcu]
                      set nx1 := createFAdd cu1.1 stepV cu1.2 with hnxD1
                      set nx2 := createFAdd cu1.1 stepV cu2.2 with hnxD2
                      have hnx : nx2.1 = nx1.1 := (createFAdd_equiv _ _ hcuE).1
                      have hnxE : CGEquiv nx1.2 nx2.2 := (createFAdd_equiv _ _ hcuE).2
                      rw [hnx]
                      set S91 := emit (Instr.store nx1.1 (newSlot s1).1) nx1.2 with hS9D1
                      set S92 := emit (Instr.store nx1.1 (newSlot s1).1) nx2.2 with hS9D2
                      have hS9E : CGEquiv S91 S92 := emit_equiv _ hnxE
                      set eb1 := createFCmpONE endV (Value.cst 0) S91 with hebD1
                      set eb2 := createFCmpONE endV (Value.cst 0) S92 with hebD2
                      have heb : eb2.1 = eb1.1 := (createFCmpONE_equiv _ _ hS9E).1
                      have hebE : CGEquiv eb1.2 eb2.2 := (createFCmpONE_equiv _ _ hS9E).2
                      rw [heb]
                      set ab1 := newBlock eb1.2 with habD1
                      set ab2 := newBlock eb2.2 with habD2
                      have hab : ab2.1 = ab1.1 := (newBlock_equiv hebE).1
                      have habE : CGEquiv ab1.2 ab2.2 := (newBlock_equiv hebE).2
                      rw [hab]
                      set X1 := setTerminator (Terminator.condbr eb1.1 L1.1 ab1.1) ab1.2 with hXD1
                      set X2 := setTerminator (Terminator.condbr eb1.1 L1.1 ab1.1) ab2.2 with hXD2
                      have hXE : CGEquiv X1 X2 := setTerminator_equiv _ habE
                      set Y1 := { X1 with curBlock := ab1.1 } with hYD1
                      set Y2 := { X2 with curBlock := ab1.1 } with hYD2
                      have hYE : CGEquiv Y1 Y2 := curBlock_equiv _ hXE
                      cases hov : (nvIndex U1.namedValues varName).1 with
                      | some hnd =>
                          dsimp only
                          exact ⟨rfl, setNV_equiv hYE
                            (nvAssign_join_congr _ _ hYE.2)⟩
                      | none =>
                          dsimp only
                          exact ⟨rfl, setNV_equiv hYE (nvErase_join_congr _ hYE.2)⟩
  | .varE vars body, s1, s2, h => by
      rw [codegen_varE, codegen_varE]
      rcases hA : codegenVars vars s1 with ⟨o1, m1⟩
      rcases hB : codegenVars vars s2 with ⟨o2, m2⟩
      obtain ⟨hof, hoE⟩ := equiv_destruct (codegenVars_equiv vars s1 s2 h) hA hB
      subst hof
      cases o1 with
      | none => exact ⟨rfl, hoE⟩
      | some olds =>
          dsimp only
          rcases hC : codegen body m1 with ⟨b1, n1⟩
          rcases hD : codegen body m2 with ⟨b2, n2⟩
          obtain ⟨hbf, hbE⟩ := equiv_destruct (codegen_equiv body m1 m2 hoE) hC hD
          subst hbf
          cases b1 with
          | none => exact ⟨rfl, hbE⟩
          | some bv =>
              dsimp only
              exact ⟨rfl, setNV_equiv hbE (nvRestore_join_congr vars olds _ _ hbE.2)⟩

theorem codegenStep_equiv : ∀ (o : OptExpr) (s1 s2 : CG), CGEquiv s1 s2 →
    (codegenStep o s2).1 = (codegenStep o s1).1 ∧
    CGEquiv (codegenStep o s1).2 (codegenStep o s2).2
  | OptExpr.none, s1, s2, h => ⟨rfl, h⟩
  | OptExpr.some e, s1, s2, h => codegen_equiv e s1 s2 h

theorem codegenInit_equiv : ∀ (o : OptExpr) (s1 s2 : CG), CGEquiv s1 s2 →
    (codegenInit o s2).1 = (codegenInit o s1).1 ∧
    CGEquiv (codegenInit o s1).2 (codegenInit o s2).2
  | OptExpr.none, s1, s2, h => ⟨rfl, h⟩
  | OptExpr.some e, s1, s2, h => codegen_equiv e s1 s2 h

theorem codegenArgs_equiv : ∀ (as : ExprList) (s1 s2 : CG), CGEquiv s1 s2 →
    (codegenArgs as s2).1 = (codegenArgs as s1).1 ∧
    CGEquiv (codegenArgs as s1).2 (codegenArgs as s2).2
  | ExprList.nil, s1, s2, h => ⟨rfl, h⟩
  | ExprList.cons e rest, s1, s2, h => by
      rw [codegenArgs_cons, codegenArgs_cons]
      rcases hA : codegen e s1 with ⟨r1, m1⟩
      rcases hB : codegen e s2 with ⟨r2, m2⟩
      obtain ⟨hf, hE⟩ := equiv_destruct (codegen_equiv e s1 s2 h) hA hB
      subst hf
      cases r1 with
      | none => exact ⟨rfl, hE⟩
      | some v =>
          dsimp only
          rcases hC : codegenArgs rest m1 with ⟨q1, n1⟩
          rcases hD : codegenArgs rest m2 with ⟨q2, n2⟩
          obtain ⟨hqf, hqE⟩ := equiv_destruct (codegenArgs_equiv rest m1 m2 hE) hC hD
          subst hqf
          cases q1 with
          | none => exact ⟨rfl, hqE⟩
          | some vs => exact ⟨rfl, hqE⟩

theorem codegenVars_equiv : ∀ (vs : VarList) (s1 s2 : CG), CGEquiv s1 s2 →
    (codegenVars vs s2).1 = (codegenVars vs s1).1 ∧
    CGEquiv (codegenVars vs s1).2 (codegenVars vs s2).2
  | VarList.nil, s1, s2, h => ⟨rfl, h⟩
  | VarList.cons name init rest, s1, s2, h => by
      rw [codegenVars_cons, codegenVars_cons]
      rcases hA : codegenInit init s1 with ⟨r1, m1⟩
      rcases hB : codegenInit init s2 with ⟨r2, m2⟩
      obtain ⟨hf, hE⟩ := equiv_destruct (codegenInit_equiv init s1 s2 h) hA hB
      subst hf
      cases r1 with
      | none => exact ⟨rfl, hE⟩
      | some iv =>
          dsimp only
          have hsl : (newSlot m2).1 = (newSlot m1).1 := (newSlot_equiv hE).1
          have hslE : CGEquiv (newSlot m1).2 (newSlot m2).2 := (newSlot_equiv hE).2
          rw [hsl]
          set E1 := emit (Instr.store iv (newSlot m1).1) (newSlot m1).2 with hE1d
          set E2 := emit (Instr.store iv (newSlot m1).1) (newSlot m2).2 with hE2d
          have hemE : CGEquiv E1 E2 := emit_equiv _ hslE
          have hp : (nvIndex E2.namedValues name).1 = (nvIndex E1.namedValues name).1 := by
            rw [nvIndex_fst, nvIndex_fst, hemE.2]
          rw [hp]
          set W1 := { E1 with namedValues := nvAssign name (some (newSlot m1).1) (nvIndex E1.namedValues name).2 } with hW1d
          set W2 := { E2 with namedValues := nvAssign name (some (newSlot m1).1) (nvIndex E2.namedValues name).2 } with hW2d
          have hWE : CGEquiv W1 W2 := setNV_equiv hemE (nvAssign_join_congr _ _ fun y => by
            rw [nvIndex_snd_join, nvIndex_snd_join]; exact hemE.2 y)
          rcases hC : codegenVars rest W1 with ⟨q1, n1⟩
          rcases hD : codegenVars rest W2 with ⟨q2, n2⟩
          obtain ⟨hqf, hqE⟩ := equiv_destruct (codegenVars_equiv rest W1 W2 hWE) hC hD
          subst hqf
          cases q1 with
          | none => exact ⟨rfl, hqE⟩
          | some olds => exact ⟨rfl, hqE⟩
end


/-!  The builder operations never touch the scope table. -/

theorem emit_nv (i : Instr) (s : CG) : (emit i s).namedValues = s.namedValues := rfl

theorem setTerminator_nv (t : Terminator) (s : CG) :
    (setTerminator t s).namedValues = s.namedValues := rfl

theorem newBlock_nv (s : CG) : (newBlock s).2.namedValues = s.namedValues := rfl

theorem newSlot_nv (s : CG) : (newSlot s).2.namedValues = s.namedValues := rfl

theorem createCall_nv (callee : String) (args : List Value) (s : CG) :
    (createCall callee args s).2.namedValues = s.namedValues := rfl

theorem builtinBinOp_nv (op : Char) (lv rv : Value) (s : CG) :
    (builtinBinOp op lv rv s).2.namedValues = s.namedValues := by
  unfold builtinBinOp
  split
  · rfl
  · rfl
  · rfl
  · rfl
  · split <;> rfl

theorem errorV_nv (msg : String) (s : CG) :
    (errorV msg s).2.namedValues = s.namedValues := rfl

/-!  Unfolding equations for the well-formedness predicate (same recursor
compilation issue as `codegen`). -/

theorem wfE_number (v : ℚ) : wfE (ExprAST.number v) = true := rfl

theorem wfE_varRef (n : String) : wfE (ExprAST.varRef n) = true := rfl

theorem wfE_unary (op : Char) (o : ExprAST) : wfE (ExprAST.unary op o) = wfE o := rfl

theorem wfE_binary (op : Char) (l r : ExprAST) :
    wfE (ExprAST.binary op l r) = (wfE l && wfE r) := rfl

theorem wfE_call (c : String) (args : ExprList) :
    wfE (ExprAST.call c args) = wfArgs args := rfl

theorem wfE_ifE (c t e : ExprAST) :
    wfE (ExprAST.ifE c t e) = (wfE c && wfE t && wfE e) := rfl

theorem wfE_forE (v : String) (st en : ExprAST) (stp : OptExpr) (bd : ExprAST) :
    wfE (ExprAST.forE v st en stp bd) = (wfE st && wfE en && wfOpt stp && wfE bd) := rfl

theorem wfE_varE (vs : VarList) (bd : ExprAST) :
    wfE (ExprAST.varE vs bd) = (distinctNames vs.names && wfVarInits vs && wfE bd) := rfl

theorem wfArgs_cons (e : ExprAST) (rest : ExprList) :
    wfArgs (ExprList.cons e rest) = (wfE e && wfArgs rest) := rfl

theorem wfVarInits_cons (n : String) (i : OptExpr) (rest : VarList) :
    wfVarInits (VarList.cons n i rest) = (wfOpt i && wfVarInits rest) := rfl

theorem distinctNames_cons {n : String} {rest : List String}
    (h : distinctNames (n :: rest) = true) : n ∉ rest ∧ distinctNames rest = true := by
  unfold distinctNames at h
  rw [Bool.and_eq_true] at h
  refine ⟨?_, h.2⟩
  by_cases hm : n ∈ rest
  · have := h.1
    rw [if_pos hm] at this
    exact absurd this (by simp)
  · exact hm

theorem nvRestore_not_mem : ∀ (vs : VarList) (olds : List (Option Nat))
    (t : String → Option (Option Nat)) (y : String), y ∉ vs.names →
    nvRestore vs olds t y = t y
  | VarList.nil, _, _, _, _ => rfl
  | VarList.cons n i rest, [], t, y, _ => rfl
  | VarList.cons n i rest, o :: os, t, y, hy => by
      have hyn : y ≠ n := by
        intro hc; exact hy (by rw [hc]; exact List.mem_cons_self n _)
      have hyr : y ∉ rest.names := fun hc => hy (List.mem_cons_of_mem _ hc)
      show nvRestore rest os (nvAssign n o t) y = t y
      rw [nvRestore_not_mem rest os (nvAssign n o t) y hyr]
      unfold nvAssign
      rw [if_neg hyn]


theorem varNames_nil : VarList.nil.names = [] := rfl

theorem varNames_cons (n : String) (i : OptExpr) (rest : VarList) :
    (VarList.cons n i rest).names = n :: rest.names := rfl

mutual
theorem codegen_join : ∀ (e : ExprAST) (s : CG) (v : Value) (s1 : CG),
    wfE e = true → codegen e s = (some v, s1) →
    ∀ y, (s1.namedValues y).join = (s.namedValues y).join
  | .number nv, s, v, s1, hw, heq => by
      rw [codegen_number] at heq
      simp only [Prod.mk.injEq, Option.some.injEq] at heq
      obtain ⟨-, hs⟩ := heq
      subst hs
      intro y; rfl
  | .varRef name, s, v, s1, hw, heq => by
      rw [codegen_varRef] at heq
      split at heq
      · simp [errorV] at heq
      · rename_i slot hp
        simp only [Prod.mk.injEq, Option.some.injEq] at heq
        obtain ⟨-, hs⟩ := heq
        subst hs
        intro y
        exact nvIndex_snd_join s.namedValues name y
  | .unary op operand, s, v, s1, hw, heq => by
      rw [wfE_unary] at hw
      rw [codegen_unary] at heq
      split at heq
      · simp at heq
      · rename_i ov m hA
        split at heq
        · simp [errorV] at heq
        · rename_i f hF
          simp only [Prod.mk.injEq, Option.some.injEq] at heq
          obtain ⟨-, hs⟩ := heq
          subst hs
          intro y
          exact codegen_join operand s ov m hw hA y
  | .binary op lhs rhs, s, v, s1, hw, heq => by
      rw [wfE_binary, Bool.and_eq_true] at hw
      rw [codegen_binary] at heq
      by_cases hop : op = '='
      · rw [if_pos hop] at heq
        cases lhs with
        | varRef name =>
            dsimp only at heq
            split at heq
            · simp at heq
            · rename_i rv m hA
              split at heq
              · simp [errorV] at heq
              · rename_i slot hp
                simp only [Prod.mk.injEq, Option.some.injEq] at heq
                obtain ⟨-, hs⟩ := heq
                subst hs
                intro y
                exact (nvIndex_snd_join m.namedValues name y).trans
                  (codegen_join rhs s rv m hw.2 hA y)
        | number a => simp [errorV] at heq
        | unary a b => simp [errorV] at heq
        | binary a b c => simp [errorV] at heq
        | call a b => simp [errorV] at heq
        | ifE a b c => simp [errorV] at heq
        | forE a b c d e2 => simp [errorV] at heq
        | varE a b => simp [errorV] at heq
      · rw [if_neg hop] at heq
        split at heq
        · rename_i lv rv hL hR
          have hLp : codegen lhs s = (some lv, (codegen lhs s).2) := Prod.ext hL rfl
          have hRp : codegen rhs (codegen lhs s).2
              = (some rv, (codegen rhs (codegen lhs s).2).2) := Prod.ext hR rfl
          have hs : s1 = (builtinBinOp op lv rv (codegen rhs (codegen lhs s).2).2).2 :=
            (congrArg Prod.snd heq).symm
          subst hs
          intro y
          rw [builtinBinOp_nv]
          exact (codegen_join rhs (codegen lhs s).2 rv _ hw.2 hRp y).trans
            (codegen_join lhs s lv _ hw.1 hLp y)
        · simp at heq
  | .call callee args, s, v, s1, hw, heq => by
      rw [wfE_call] at hw
      rw [codegen_call] at heq
      split at heq
      · simp [errorV] at heq
      · rename_i f hF
        split at heq
        · simp [errorV] at heq
        · split at heq
          · simp at heq
          · rename_i vs m hA
            simp only [Prod.mk.injEq, Option.some.injEq] at heq
            obtain ⟨-, hs⟩ := heq
            subst hs
            intro y
            exact codegenArgs_join args s vs m hw hA y
  | .ifE cnd thn els, s, v, s1, hw, heq => by
      rw [wfE_ifE] at hw
      simp only [Bool.and_eq_true] at hw
      obtain ⟨⟨hwc, hwt⟩, hwe⟩ := hw
      rw [codegen_ifE] at heq
      split at heq
      · simp at heq
      · rename_i cv m hA
        dsimp only at heq
        split at heq
        · simp at heq
        · rename_i tv u hT
          split at heq
          · simp at heq
          · rename_i ev w hL
            simp only [Prod.mk.injEq, Option.some.injEq] at heq
            obtain ⟨-, hs⟩ := heq
            subst hs
            intro y
            exact (codegen_join els _ ev w hwe hL y).trans
              ((codegen_join thn _ tv u hwt hT y).trans
                (codegen_join cnd s cv m hwc hA y))
  | .forE varName start endE step body, s, v, s1, hw, heq => by
      rw [wfE_forE] at hw
      simp only [Bool.and_eq_true] at hw
      obtain ⟨⟨⟨hwst, hwen⟩, hwstp⟩, hwbd⟩ := hw
      rw [codegen_forE] at heq
      dsimp only at heq
      split at heq
      · simp at heq
      · rename_i sv m hS
        split at heq
        · simp at heq
        · rename_i bv w hB
          split at heq
          · simp at heq
          · rename_i stepV x hP
            split at heq
            · simp at heq
            · rename_i endV yS hQ
              simp only [Prod.mk.injEq, Option.some.injEq] at heq
              obtain ⟨-, hs⟩ := heq
              subst hs
              intro z
              split
              · rename_i hnd hov
                rw [nvAssign_join]
                by_cases hz : z = varName
                · rw [if_pos hz]
                  subst hz
                  rw [← hov, nvIndex_fst]
                  exact codegen_join start _ sv m hwst hS z
                · rw [if_neg hz]
                  refine ((codegen_join endE _ endV yS hwen hQ z).trans
                    ((codegenStep_join step _ stepV x hwstp hP z).trans
                      ((codegen_join body _ bv w hwbd hB z).trans ?_)))
                  rw [nvAssign_join, if_neg hz, nvIndex_snd_join]
                  exact codegen_join start _ sv m hwst hS z
              · rename_i hov
                rw [nvErase_join]
                by_cases hz : z = varName
                · rw [if_pos hz]
                  subst hz
                  rw [← hov, nvIndex_fst]
                  exact codegen_join start _ sv m hwst hS z
                · rw [if_neg hz]
                  refine ((codegen_join endE _ endV yS hwen hQ z).trans
                    ((codegenStep_join step _ stepV x hwstp hP z).trans
                      ((codegen_join body _ bv w hwbd hB z).trans ?_)))
                  rw [nvAssign_join, if_neg hz, nvIndex_snd_join]
                  exact codegen_join start _ sv m hwst hS z
  | .varE vars body, s, v, s1, hw, heq => by
      rw [wfE_varE] at hw
      simp only [Bool.and_eq_true] at hw
      obtain ⟨⟨hdist, hwi⟩, hwb⟩ := hw
      rw [codegen_varE] at heq
      split at heq
      · simp at heq
      · rename_i olds m hV
        split at heq
        · simp at heq
        · rename_i bv w hB
          simp only [Prod.mk.injEq, Option.some.injEq] at heq
          obtain ⟨-, hs⟩ := heq
          subst hs
          intro y
          have hres := codegenVars_restore vars s olds m w.namedValues hwi hV hdist y
          by_cases hy : y ∈ vars.names
          · rw [if_pos hy] at hres
            exact hres
          · rw [if_neg hy] at hres
            exact hres.trans ((codegen_join body _ bv w hwb hB y).trans
              (codegenVars_off vars s olds m hwi hV y hy))

theorem codegenStep_join : ∀ (o : OptExpr) (s : CG) (v : Value) (s1 : CG),
    wfOpt o = true → codegenStep o s = (some v, s1) →
    ∀ y, (s1.namedValues y).join = (s.namedValues y).join
  | OptExpr.none, s, v, s1, _, heq => by
      rw [codegenStep_none] at heq
      simp only [Prod.mk.injEq, Option.some.injEq] at heq
      obtain ⟨-, hs⟩ := heq
      subst hs
      intro y; rfl
  | OptExpr.some e, s, v, s1, hw, heq => by
      rw [codegenStep_some] at heq
      exact codegen_join e s v s1 hw heq

theorem codegenInit_join : ∀ (o : OptExpr) (s : CG) (v : Value) (s1 : CG),
    wfOpt o = true → codegenInit o s = (some v, s1) →
    ∀ y, (s1.namedValues y).join = (s.namedValues y).join
  | OptExpr.none, s, v, s1, _, heq => by
      rw [codegenInit_none] at heq
      simp only [Prod.mk.injEq, Option.some.injEq] at heq
      obtain ⟨-, hs⟩ := heq
      subst hs
      intro y; rfl
  | OptExpr.some e, s, v, s1, hw, heq => by
      rw [codegenInit_some] at heq
      exact codegen_join e s v s1 hw heq

theorem codegenArgs_join : ∀ (as : ExprList) (s : CG) (vs : List Value) (s1 : CG),
    wfArgs as = true → codegenArgs as s = (some vs, s1) →
    ∀ y, (s1.namedValues y).join = (s.namedValues y).join
  | ExprList.nil, s, vs, s1, _, heq => by
      rw [codegenArgs_nil] at heq
      simp only [Prod.mk.injEq, Option.some.injEq] at heq
      obtain ⟨-, hs⟩ := heq
      subst hs
      intro y; rfl
  | ExprList.cons e rest, s, vs, s1, hw, heq => by
      rw [wfArgs_cons, Bool.and_eq_true] at hw
      rw [codegenArgs_cons] at heq
      split at heq
      · simp at heq
      · rename_i v1 m hA
        split at heq
        · simp at heq
        · rename_i vs2 n hR
          simp only [Prod.mk.injEq, Option.some.injEq] at heq
          obtain ⟨-, hs⟩ := heq
          subst hs
          intro y
          exact (codegenArgs_join rest m vs2 n hw.2 hR y).trans
            (codegen_join e s v1 m hw.1 hA y)

theorem codegenVars_off : ∀ (vs : VarList) (s : CG) (olds : List (Option Nat)) (s1 : CG),
    wfVarInits vs = true → codegenVars vs s = (some olds, s1) →
    ∀ y, y ∉ vs.names → (s1.namedValues y).join = (s.namedValues y).join
  | VarList.nil, s, olds, s1, _, heq => by
      rw [codegenVars_nil] at heq
      simp only [Prod.mk.injEq, Option.some.injEq] at heq
      obtain ⟨-, hs⟩ := heq
      subst hs
      intro y _; rfl
  | VarList.cons name init rest, s, olds, s1, hw, heq => by
      rw [wfVarInits_cons, Bool.and_eq_true] at hw
      rw [codegenVars_cons] at heq
      split at heq
      · simp at heq
      · rename_i iv m hI
        dsimp only at heq
        split at heq
        · simp at heq
        · rename_i olds2 n hR
          simp only [Prod.mk.injEq, Option.some.injEq] at heq
          obtain ⟨-, hs⟩ := heq
          subst hs
          intro y hy
          have hyn : y ≠ name := fun hc => hy (by rw [hc]; exact List.mem_cons_self _ _)
          have hyr : y ∉ rest.names := fun hc => hy (List.mem_cons_of_mem _ hc)
          refine (codegenVars_off rest _ olds2 n hw.2 hR y hyr).trans ?_
          rw [nvAssign_join, if_neg hyn, nvIndex_snd_join]
          exact codegenInit_join init s iv m hw.1 hI y

theorem codegenVars_restore : ∀ (vs : VarList) (s : CG) (olds : List (Option Nat)) (s1 : CG)
    (t : String → Option (Option Nat)),
    wfVarInits vs = true → codegenVars vs s = (some olds, s1) →
    distinctNames vs.names = true →
    ∀ y, (nvRestore vs olds t y).join =
      if y ∈ vs.names then (s.namedValues y).join else (t y).join
  | VarList.nil, s, olds, s1, t, _, heq, _ => by
      rw [codegenVars_nil] at heq
      simp only [Prod.mk.injEq, Option.some.injEq] at heq
      obtain ⟨ho, -⟩ := heq
      subst ho
      intro y
      rw [varNames_nil, if_neg (List.not_mem_nil y)]
      rfl
  | VarList.cons name init rest, s, olds, s1, t, hw, heq, hdist => by
      rw [wfVarInits_cons, Bool.and_eq_true] at hw
      obtain ⟨hnm, hdr⟩ := distinctNames_cons hdist
      rw [codegenVars_cons] at heq
      split at heq
      · simp at heq
      · rename_i iv m hI
        dsimp only at heq
        split at heq
        · simp at heq
        · rename_i olds2 n hR
          simp only [Prod.mk.injEq, Option.some.injEq] at heq
          obtain ⟨ho, hs⟩ := heq
          subst hs
          subst ho
          intro y
          show (nvRestore rest olds2 (nvAssign name
            (nvIndex (emit (Instr.store iv (newSlot m).1) (newSlot m).2).namedValues name).1 t) y).join = _
          have hIH := codegenVars_restore rest _ olds2 n (nvAssign name
            (nvIndex (emit (Instr.store iv (newSlot m).1) (newSlot m).2).namedValues name).1 t)
            hw.2 hR hdr y
          rw [varNames_cons]
          by_cases hy1 : y ∈ rest.names
          · rw [if_pos hy1] at hIH
            rw [if_pos (List.mem_cons_of_mem _ hy1)]
            have hyn : y ≠ name := fun hc => hnm (hc ▸ hy1)
            refine hIH.trans ?_
            rw [nvAssign_join, if_neg hyn, nvIndex_snd_join]
            exact codegenInit_join init s iv m hw.1 hI y
          · rw [if_neg hy1] at hIH
            by_cases hy2 : y = name
            · subst hy2
              rw [if_pos (List.mem_cons_self _ _)]
              refine hIH.trans ?_
              rw [nvAssign_join, if_pos rfl, nvIndex_fst]
              exact codegenInit_join init s iv m hw.1 hI y
            · rw [if_neg (by
                intro hc
                rcases List.mem_cons.mp hc with hc1 | hc2
                · exact hy2 hc1
                · exact hy1 hc2)]
              refine hIH.trans ?_
              rw [nvAssign_join, if_neg hy2]
end

/-- After a successful counted loop, the loop variable's table entry is the
null-collapsed view of its pre-loop entry: bound-to-h becomes bound-to-h
again, while both absent and bound-to-null become absent (the restore path
erases the name entirely when the default-inserted old value was null). -/
theorem forE_success_var (varName : String) (start endE : ExprAST) (step : OptExpr)
    (body : ExprAST) (s : CG) (v : Value) (s1 : CG)
    (hwst : wfE start = true)
    (heq : codegen (ExprAST.forE varName start endE step body) s = (some v, s1)) :
    s1.namedValues varName = ((s.namedValues varName).join).map some := by
  rw [codegen_forE] at heq
  dsimp only at heq
  split at heq
  · simp at heq
  · rename_i sv m hS
    split at heq
    · simp at heq
    · rename_i bv w hB
      split at heq
      · simp at heq
      · rename_i stepV x hP
        split at heq
        · simp at heq
        · rename_i endV yS hQ
          simp only [Prod.mk.injEq, Option.some.injEq] at heq
          obtain ⟨-, hs⟩ := heq
          subst hs
          split
          · rename_i h2 hov
            have hov2 : (m.namedValues varName).join = some h2 := by
              have h4 := hov
              rw [nvIndex_fst] at h4
              exact h4
            have hj : (s.namedValues varName).join = some h2 :=
              (codegen_join start _ sv m hwst hS varName).symm.trans hov2
            rw [hj]
            simp [nvAssign]
          · rename_i hov
            have hov2 : (m.namedValues varName).join = none := by
              have h4 := hov
              rw [nvIndex_fst] at h4
              exact h4
            have hj : (s.namedValues varName).join = none :=
              (codegen_join start _ sv m hwst hS varName).symm.trans hov2
            rw [hj]
            simp [nvErase]

/-- After a successful scoped-binding block whose names are distinct, the
first bound name's table entry is `some` of its old null-collapsed view: a
previously-unbound (or null-bound) name is left present in the table, bound
to the null pointer, rather than erased. -/
theorem varE_success_first (name : String) (init : OptExpr) (rest : VarList)
    (body : ExprAST) (s : CG) (v : Value) (s1 : CG)
    (hwi : wfOpt init = true)
    (hdist : distinctNames (VarList.cons name init rest).names = true)
    (heq : codegen (ExprAST.varE (VarList.cons name init rest) body) s = (some v, s1)) :
    s1.namedValues name = some ((s.namedValues name).join) := by
  rw [varNames_cons] at hdist
  have hnm : name ∉ rest.names := (distinctNames_cons hdist).1
  rw [codegen_varE] at heq
  split at heq
  · simp at heq
  · rename_i olds m hV
    rw [codegenVars_cons] at hV
    split at hV
    · simp at hV
    · rename_i iv mI hI
      dsimp only at hV
      split at hV
      · simp at hV
      · rename_i olds2 n hR
        simp only [Prod.mk.injEq, Option.some.injEq] at hV
        obtain ⟨ho, hm⟩ := hV
        subst hm
        subst ho
        split at heq
        · simp at heq
        · rename_i bv w hB
          simp only [Prod.mk.injEq, Option.some.injEq] at heq
          obtain ⟨-, hs⟩ := heq
          subst hs
          show nvRestore rest olds2 (nvAssign name
            (nvIndex (emit (Instr.store iv (newSlot mI).1) (newSlot mI).2).namedValues name).1
            w.namedValues) name = _
          rw [nvRestore_not_mem rest olds2 _ name hnm]
          unfold nvAssign
          rw [if_pos rfl]
          refine congrArg some ?_
          rw [nvIndex_fst]
          exact codegenInit_join init s iv mI hwi hI name

/-!  Agreement between `codegen` and its fuelled mirror `codegenF`:
whenever the fuel covers the structural size of the expression, the mirror
computes exactly the (tagged) `codegen` result.  The mirror recurses on the
fuel, so the kernel can evaluate it on concrete programs. -/

theorem szE_number (v : ℚ) : szE (ExprAST.number v) = 1 := rfl

theorem szE_varRef (n : String) : szE (ExprAST.varRef n) = 1 := rfl

theorem szE_unary (op : Char) (o : ExprAST) : szE (ExprAST.unary op o) = szE o + 1 := rfl

theorem szE_binary (op : Char) (l r : ExprAST) :
    szE (ExprAST.binary op l r) = szE l + szE r + 1 := rfl

theorem szE_call (c : String) (args : ExprList) :
    szE (ExprAST.call c args) = szArgs args + 1 := rfl

theorem szE_ifE (c t e : ExprAST) :
    szE (ExprAST.ifE c t e) = szE c + szE t + szE e + 1 := rfl

theorem szE_forE (v : String) (st en : ExprAST) (stp : OptExpr) (bd : ExprAST) :
    szE (ExprAST.forE v st en stp bd) = szE st + szE en + szOpt stp + szE bd + 1 := rfl

theorem szE_varE (vs : VarList) (bd : ExprAST) :
    szE (ExprAST.varE vs bd) = szVars vs + szE bd + 1 := rfl

theorem szOpt_none : szOpt OptExpr.none = 1 := rfl

theorem szOpt_some (e : ExprAST) : szOpt (OptExpr.some e) = szE e + 1 := rfl

theorem szArgs_nil : szArgs ExprList.nil = 1 := rfl

theorem szArgs_cons (e : ExprAST) (rest : ExprList) :
    szArgs (ExprList.cons e rest) = szE e + szArgs rest + 1 := rfl

theorem szVars_nil : szVars VarList.nil = 1 := rfl

theorem szVars_cons (n : String) (i : OptExpr) (rest : VarList) :
    szVars (VarList.cons n i rest) = szOpt i + szVars rest + 1 := rfl

mutual
theorem agreeE : ∀ (e : ExprAST) (fuel : Nat) (s : CG), szE e ≤ fuel →
    codegenF fuel (CGTask.exprT e) s = wrapV (codegen e s)
  | .number v, fuel + 1, s, _ => rfl
  | .varRef name, fuel + 1, s, _ => by
      rw [codegen_varRef]
      simp only [codegenF]
      cases hp : (nvIndex s.namedValues name).1 <;> rfl
  | .unary op operand, fuel + 1, s, h => by
      rw [szE_unary] at h
      rw [codegen_unary]
      simp only [codegenF]
      rw [agreeE operand fuel s (by omega)]
      rcases hA : codegen operand s with ⟨r1, m1⟩
      cases r1 with
      | none => rfl
      | some ov =>
          dsimp only [wrapV, CGRes.asVal]
          cases hF : getFunction m1.module ("unary".push op) <;> rfl
  | .binary op lhs rhs, fuel + 1, s, h => by
      rw [szE_binary] at h
      rw [codegen_binary]
      simp only [codegenF]
      by_cases hop : op = '='
      · rw [if_pos hop, if_pos hop]
        cases lhs <;> try rfl
        rename_i name
        dsimp only
        rw [agreeE rhs fuel s (by omega)]
        rcases hA : codegen rhs s with ⟨r1, m1⟩
        cases r1 with
        | none => rfl
        | some v =>
            dsimp only [wrapV, CGRes.asVal]
            cases hp : (nvIndex m1.namedValues name).1 <;> rfl
      · rw [if_neg hop, if_neg hop]
        rw [agreeE lhs fuel s (by omega)]
        dsimp only [wrapV]
        rw [agreeE rhs fuel _ (by omega)]
        rcases hL : codegen lhs s with ⟨r1, m1⟩
        dsimp only [wrapV]
        rcases hR : codegen rhs m1 with ⟨r2, m2⟩
        cases r1 <;> cases r2 <;> rfl
  | .call callee args, fuel + 1, s, h => by
      rw [szE_call] at h
      rw [codegen_call]
      simp only [codegenF]
      cases hF : getFunction s.module callee with
      | none => rfl
      | some f =>
          dsimp only
          by_cases ha : f.arity ≠ args.length
          · rw [if_pos ha, if_pos ha]
            rfl
          · rw [if_neg ha, if_neg ha]
            rw [agreeArgs args fuel s (by omega)]
            rcases hA : codegenArgs args s with ⟨r1, m1⟩
            cases r1 <;> rfl
  | .ifE cnd thn els, fuel + 1, s, h => by
      rw [szE_ifE] at h
      rw [codegen_ifE]
      simp only [codegenF]
      rw [agreeE cnd fuel s (by omega)]
      symm
      split
      · rename_i s1 heq
        rw [heq]
        rfl
      · rename_i cv s1 heq
        rw [heq]
        dsimp only [wrapV, CGRes.asVal]
        rw [agreeE thn fuel _ (by omega)]
        split
        · rename_i s5 heq2
          rw [heq2]
          rfl
        · rename_i tv s5 heq2
          rw [heq2]
          dsimp only [wrapV, CGRes.asVal]
          rw [agreeE els fuel _ (by omega)]
          split
          · rename_i s8 heq3
            rw [heq3]
            rfl
          · rename_i ev s8 heq3
            rw [heq3]
            rfl
  | .forE varName start endE step body, fuel + 1, s, h => by
      rw [szE_forE] at h
      rw [codegen_forE]
      simp only [codegenF]
      rw [agreeE start fuel _ (by omega)]
      symm
      split
      · rename_i s1 heq
        rw [heq]
        rfl
      · rename_i sv s1 heq
        rw [heq]
        dsimp only [wrapV, CGRes.asVal]
        rw [agreeE body fuel _ (by omega)]
        split
        · rename_i s6 heq2
          rw [heq2]
          rfl
        · rename_i bv s6 heq2
          rw [heq2]
          dsimp only [wrapV, CGRes.asVal]
          rw [agreeStep step fuel _ (by omega)]
          split
          · rename_i s7 heq3
            rw [heq3]
            rfl
          · rename_i stepV s7 heq3
            rw [heq3]
            dsimp only [wrapV, CGRes.asVal]
            rw [agreeE endE fuel _ (by omega)]
            split
            · rename_i s8 heq4
              rw [heq4]
              rfl
            · rename_i endV s8 heq4
              rw [heq4]
              rfl
  | .varE vars body, fuel + 1, s, h => by
      rw [szE_varE] at h
      rw [codegen_varE]
      simp only [codegenF]
      rw [agreeVars vars fuel s (by omega)]
      symm
      split
      · rename_i s1 heq
        rw [heq]
        rfl
      · rename_i olds s1 heq
        rw [heq]
        dsimp only [wrapOL, CGRes.asOList]
        rw [agreeE body fuel _ (by omega)]
        split
        · rename_i s2 heq2
          rw [heq2]
          rfl
        · rename_i bv s2 heq2
          rw [heq2]
          rfl
  | e, 0, _, h => absurd h (by cases e <;> exact Nat.not_succ_le_zero _)

theorem agreeStep : ∀ (o : OptExpr) (fuel : Nat) (s : CG), szOpt o ≤ fuel →
    codegenF fuel (CGTask.stepT o) s = wrapV (codegenStep o s)
  | OptExpr.none, fuel + 1, s, _ => rfl
  | OptExpr.some e, fuel + 1, s, h => by
      rw [szOpt_some] at h
      rw [codegenStep_some]
      simp only [codegenF]
      rw [agreeE e fuel s (by omega)]
      dsimp only [wrapV, CGRes.asVal]
  | o, 0, _, h => absurd h (by cases o <;> exact Nat.not_succ_le_zero _)

theorem agreeInit : ∀ (o : OptExpr) (fuel : Nat) (s : CG), szOpt o ≤ fuel →
    codegenF fuel (CGTask.initT o) s = wrapV (codegenInit o s)
  | OptExpr.none, fuel + 1, s, _ => rfl
  | OptExpr.some e, fuel + 1, s, h => by
      rw [szOpt_some] at h
      rw [codegenInit_some]
      simp only [codegenF]
      rw [agreeE e fuel s (by omega)]
      dsimp only [wrapV, CGRes.asVal]
  | o, 0, _, h => absurd h (by cases o <;> exact Nat.not_succ_le_zero _)

theorem agreeArgs : ∀ (as : ExprList) (fuel : Nat) (s : CG), szArgs as ≤ fuel →
    codegenF fuel (CGTask.argsT as) s = wrapVL (codegenArgs as s)
  | ExprList.nil, fuel + 1, s, _ => rfl
  | ExprList.cons e rest, fuel + 1, s, h => by
      rw [szArgs_cons] at h
      rw [codegenArgs_cons]
      simp only [codegenF]
      rw [agreeE e fuel s (by omega)]
      symm
      split
      · rename_i s1 heq
        rw [heq]
        rfl
      · rename_i v s1 heq
        rw [heq]
        dsimp only [wrapV, CGRes.asVal]
        rw [agreeArgs rest fuel _ (by omega)]
        split
        · rename_i s2 heq2
          rw [heq2]
          rfl
        · rename_i vs s2 heq2
          rw [heq2]
          rfl
  | as, 0, _, h => absurd h (by cases as <;> exact Nat.not_succ_le_zero _)

theorem agreeVars : ∀ (vs : VarList) (fuel : Nat) (s : CG), szVars vs ≤ fuel →
    codegenF fuel (CGTask.varsT vs) s = wrapOL (codegenVars vs s)
  | VarList.nil, fuel + 1, s, _ => rfl
  | VarList.cons name init rest, fuel + 1, s, h => by
      rw [szVars_cons] at h
      rw [codegenVars_cons]
      simp only [codegenF]
      rw [agreeInit init fuel s (by omega)]
      symm
      split
      · rename_i s1 heq
        rw [heq]
        rfl
      · rename_i iv s1 heq
        rw [heq]
        dsimp only [wrapV, CGRes.asVal]
        rw [agreeVars rest fuel _ (by omega)]
        split
        · rename_i s4 heq2
          rw [heq2]
          rfl
        · rename_i olds s4 heq2
          rw [heq2]
          rfl
  | vs, 0, _, h => absurd h (by cases vs <;> exact Nat.not_succ_le_zero _)
end

/-- `codegen` computed through the mirror, for fast kernel evaluation on
concrete programs. -/
theorem codegen_fuel (e : ExprAST) (s : CG) (fuel : Nat) (h : szE e ≤ fuel) :
    codegen e s = ((codegenF fuel (CGTask.exprT e) s).1.asVal,
                   (codegenF fuel (CGTask.exprT e) s).2) := by
  rw [agreeE e fuel s h]
  rfl

/-- `codegenArgs` computed through the mirror. -/
theorem codegenArgs_fuel (as : ExprList) (s : CG) (fuel : Nat) (h : szArgs as ≤ fuel) :
    codegenArgs as s = ((codegenF fuel (CGTask.argsT as) s).1.asVList,
                        (codegenF fuel (CGTask.argsT as) s).2) := by
  rw [agreeArgs as fuel s h]
  rfl

/-- `codegenVars` computed through the mirror. -/
theorem codegenVars_fuel (vs : VarList) (s : CG) (fuel : Nat) (h : szVars vs ≤ fuel) :
    codegenVars vs s = ((codegenF fuel (CGTask.varsT vs) s).1.asOList,
                        (codegenF fuel (CGTask.varsT vs) s).2) := by
  rw [agreeVars vs fuel s h]
  rfl

/-- `funcCodegen` computed through the mirror. -/
theorem funcCodegen_fuel (p : PrototypeAST) (body : ExprAST) (s : CG) (fuel : Nat)
    (h : szE body ≤ fuel) :
    funcCodegen p body s = funcCodegenF fuel p body s := by
  simp only [funcCodegen, funcCodegenF]
  split
  · rfl
  · rename_i fname s1 heq
    rw [agreeE body fuel _ h]
    split
    · rename_i rv s6 heq2
      rw [heq2]
      rfl
    · rename_i s6 heq2
      rw [heq2]
      rfl

/-!  The claims.  Each claim of the specification is settled by one theorem
below; corrected claims additionally get a closed counterexample at a
concrete input, and theorems with hypotheses get a closed witness applying
them at a concrete input. -/

/-- C1 counterexample: the spec says the loop body of
`for i = 1, i < 4, 1.0 in putchard(i)` executes exactly 3 times (i = 1, 2,
3); running the lowered loop calls `putchard` four times, so the trace is
not the 3-call trace. -/
theorem c1_counterexample :
    ¬ (execFunc (funcCodegen anonProto loop134 stP).2.module 100 "" [] [] =
        some (0, [("putchard", [1]), ("putchard", [2]), ("putchard", [3])])) := by
  rw [funcCodegen_fuel anonProto loop134 stP 50 (by decide)]
  with_unfolding_all decide

/-- C1 (amended): lowering `for i = 1, i < 4, 1.0 in putchard(i)` as a
top-level form succeeds, the loop construct's own value is the constant
0.0, and executing the lowered function runs the body exactly 4 times with
i = 1, 2, 3, 4 (the end condition is evaluated after the body, from the
pre-increment value of i) and returns 0.0. -/
theorem c1_loop_executes_four_times :
    (funcCodegen anonProto loop134 stP).1 = some "" ∧
    (codegen loop134 { stP with blocks := [⟨0, [], Option.none⟩] }).1 =
      some (Value.cst 0) ∧
    execFunc (funcCodegen anonProto loop134 stP).2.module 100 "" [] [] =
      some (0, [("putchard", [1]), ("putchard", [2]), ("putchard", [3]), ("putchard", [4])]) := by
  refine ⟨?_, ?_, ?_⟩
  · rw [funcCodegen_fuel anonProto loop134 stP 50 (by decide)]
    decide
  · rw [codegen_fuel loop134 _ 50 (by decide)]
    decide
  · rw [funcCodegen_fuel anonProto loop134 stP 50 (by decide)]
    with_unfolding_all decide

/-- C2 counterexample: the spec says no name introduced by a scoped-binding
block is visible to any initializer of the same block, even a later one;
but `var a = 7, b = a in b`, lowered where no outer `a` exists at all,
succeeds and yields 7.0 — the later initializer saw the block's own earlier
`a`. -/
theorem c2_counterexample :
    (funcCodegen tProto (siblingProg 7) st0).1 = some "t" ∧
    execFunc (funcCodegen tProto (siblingProg 7) st0).2.module 100 "t" [] [] =
      some (7, []) := by
  constructor
  · rw [funcCodegen_fuel tProto (siblingProg 7) st0 50 (by decide)]
    decide
  · rw [funcCodegen_fuel tProto (siblingProg 7) st0 50 (by decide)]
    with_unfolding_all decide

/-- C2 (amended): the scope-visibility discipline of a scoped-binding
block, universally: (1) a pair's initializer is lowered in the block's
incoming scope — if it fails there, the block fails with exactly that
state; the pair's own name and later names have not been entered; (2, 3) on
success the remaining pairs (hence every later initializer) are lowered in
`varsStepState`, and the saved old binding is the pair's pre-block resolve
view; (4) `varsStepState` resolves exactly like the scope before the pair
overlaid with the pair's new binding — so, composing pair by pair, each
initializer sees the earlier pairs of its block overlaid on the outer
scope, and nothing else; (5) lowering an initializer itself never changes
the resolve view.  Concretely, `var a = c in (var a = a in a)` and
`var a = c, b = a in b` both yield c, and an initializer naming a
completely absent variable fails. -/
theorem c2_initializer_scope :
    (∀ (name : String) (init : OptExpr) (rest : VarList) (s s1 : CG),
      codegenInit init s = (Option.none, s1) →
      codegenVars (VarList.cons name init rest) s = (Option.none, s1)) ∧
    (∀ (name : String) (init : OptExpr) (rest : VarList) (s s1 s4 : CG) (iv : Value),
      codegenInit init s = (some iv, s1) →
      codegenVars rest (varsStepState name iv s1) = (Option.none, s4) →
      codegenVars (VarList.cons name init rest) s = (Option.none, s4)) ∧
    (∀ (name : String) (init : OptExpr) (rest : VarList) (s s1 s4 : CG) (iv : Value)
      (olds : List (Option Nat)), wfOpt init = true →
      codegenInit init s = (some iv, s1) →
      codegenVars rest (varsStepState name iv s1) = (some olds, s4) →
      codegenVars (VarList.cons name init rest) s =
        (some ((s.namedValues name).join :: olds), s4)) ∧
    (∀ (name : String) (iv : Value) (s1 : CG) (y : String),
      ((varsStepState name iv s1).namedValues y).join =
        if y = name then some s1.nextSlot else (s1.namedValues y).join) ∧
    (∀ (init : OptExpr) (s s1 : CG) (iv : Value), wfOpt init = true →
      codegenInit init s = (some iv, s1) →
      ∀ y, (s1.namedValues y).join = (s.namedValues y).join) ∧
    (∀ c : ℚ,
      (funcCodegen tProto (shadowProg c) st0).1 = some "t" ∧
      execFunc (funcCodegen tProto (shadowProg c) st0).2.module 100 "t" [] [] =
        some (c, []) ∧
      (funcCodegen tProto (siblingProg c) st0).1 = some "t" ∧
      execFunc (funcCodegen tProto (siblingProg c) st0).2.module 100 "t" [] [] =
        some (c, [])) ∧
    (codegen unboundInitProg stBlk).1 = Option.none := by
  refine ⟨?_, ?_, ?_, ?_, ?_, ?_, ?_⟩
  · intro name init rest s s1 h
    rw [codegenVars_cons, h]
  · intro name init rest s s1 s4 iv hInit hRest
    rw [codegenVars_cons, hInit]
    dsimp only
    split
    · rename_i s4b heqB
      have h3 := hRest.symm.trans
        (show codegenVars rest (varsStepState name iv s1) = (Option.none, s4b) from heqB)
      simp only [Prod.mk.injEq, true_and] at h3
      rw [h3]
    · rename_i olds2 s4b heqB
      have h3 := hRest.symm.trans
        (show codegenVars rest (varsStepState name iv s1) = (some olds2, s4b) from heqB)
      simp at h3
  · intro name init rest s s1 s4 iv olds hw hInit hRest
    rw [codegenVars_cons, hInit]
    dsimp only
    split
    · rename_i s4b heqB
      have h3 := hRest.symm.trans
        (show codegenVars rest (varsStepState name iv s1) = (Option.none, s4b) from heqB)
      simp at h3
    · rename_i olds2 s4b heqB
      have h3 := hRest.symm.trans
        (show codegenVars rest (varsStepState name iv s1) = (some olds2, s4b) from heqB)
      simp only [Prod.mk.injEq, Option.some.injEq] at h3
      rw [← h3.1, ← h3.2]
      have hp : (nvIndex (emit (Instr.store iv (newSlot s1).1) (newSlot s1).2).namedValues
          name).1 = (s.namedValues name).join := by
        rw [nvIndex_fst]
        exact codegenInit_join init s iv s1 hw hInit name
      rw [hp]
  · intro name iv s1 y
    simp only [varsStepState]
    rw [nvAssign_join]
    by_cases hy : y = name
    · rw [if_pos hy, if_pos hy]
      rfl
    · rw [if_neg hy, if_neg hy, nvIndex_snd_join]
      rfl
  · exact fun init s s1 iv hw h => codegenInit_join init s iv s1 hw h
  · intro c
    refine ⟨?_, ?_, ?_, ?_⟩
    · rw [funcCodegen_fuel tProto (shadowProg c) st0 50
        (by rw [show szE (shadowProg c) = szE (shadowProg 0) from rfl]; decide)]
      rfl
    · rw [funcCodegen_fuel tProto (shadowProg c) st0 50
        (by rw [show szE (shadowProg c) = szE (shadowProg 0) from rfl]; decide)]
      rfl
    · rw [funcCodegen_fuel tProto (siblingProg c) st0 50
        (by rw [show szE (siblingProg c) = szE (siblingProg 0) from rfl]; decide)]
      rfl
    · rw [funcCodegen_fuel tProto (siblingProg c) st0 50
        (by rw [show szE (siblingProg c) = szE (siblingProg 0) from rfl]; decide)]
      rfl
  · rw [codegen_fuel unboundInitProg stBlk 50 (by decide)]
    decide

/-- C2 witness: the hypothesis-bearing parts of `c2_initializer_scope`
applied at concrete blocks: a first initializer naming an absent `a`
failing in the incoming scope; `var a = 7, b = nope in ...` failing in the
post-pair scope; `var a = 7, b = a in ...` succeeding with the saved old
bindings; the post-pair scope probed at the pair's own name; and a
scoped-binding-block initializer leaving the resolve view unchanged. -/
theorem c2_witness :
    codegenVars (VarList.cons "b" (OptExpr.some (ExprAST.varRef "a")) VarList.nil) stBlk =
      (Option.none, (codegen (ExprAST.varRef "a") stBlk).2) ∧
    codegenVars (VarList.cons "a" (OptExpr.some (ExprAST.number 7))
        (VarList.cons "b" (OptExpr.some (ExprAST.varRef "nope")) VarList.nil)) stBlk =
      (Option.none,
       (codegenVars (VarList.cons "b" (OptExpr.some (ExprAST.varRef "nope")) VarList.nil)
         (varsStepState "a" (Value.cst 7) stBlk)).2) ∧
    codegenVars (VarList.cons "a" (OptExpr.some (ExprAST.number 7))
        (VarList.cons "b" (OptExpr.some (ExprAST.varRef "a")) VarList.nil)) stBlk =
      (some ((stBlk.namedValues "a").join :: [Option.none]),
       (codegenVars (VarList.cons "b" (OptExpr.some (ExprAST.varRef "a")) VarList.nil)
         (varsStepState "a" (Value.cst 7) stBlk)).2) ∧
    ((varsStepState "x" (Value.cst 1) stBlk).namedValues "x").join =
      (if "x" = "x" then some stBlk.nextSlot else (stBlk.namedValues "x").join) ∧
    ((codegen sentinelProg stBlk).2.namedValues "x").join =
      (stBlk.namedValues "x").join :=
  ⟨c2_initializer_scope.1 "b" (OptExpr.some (ExprAST.varRef "a")) VarList.nil stBlk
     (codegen (ExprAST.varRef "a") stBlk).2
     (by rw [codegenInit_some, codegen_fuel (ExprAST.varRef "a") stBlk 5 (by decide)]; rfl),
   c2_initializer_scope.2.1 "a" (OptExpr.some (ExprAST.number 7))
     (VarList.cons "b" (OptExpr.some (ExprAST.varRef "nope")) VarList.nil) stBlk stBlk
     (codegenVars (VarList.cons "b" (OptExpr.some (ExprAST.varRef "nope")) VarList.nil)
       (varsStepState "a" (Value.cst 7) stBlk)).2
     (Value.cst 7) rfl
     (by rw [codegenVars_fuel (VarList.cons "b" (OptExpr.some (ExprAST.varRef "nope"))
        VarList.nil) (varsStepState "a" (Value.cst 7) stBlk) 10 (by decide)]; rfl),
   c2_initializer_scope.2.2.1 "a" (OptExpr.some (ExprAST.number 7))
     (VarList.cons "b" (OptExpr.some (ExprAST.varRef "a")) VarList.nil) stBlk stBlk
     (codegenVars (VarList.cons "b" (OptExpr.some (ExprAST.varRef "a")) VarList.nil)
       (varsStepState "a" (Value.cst 7) stBlk)).2
     (Value.cst 7) [Option.none] (by decide) rfl
     (by rw [codegenVars_fuel (VarList.cons "b" (OptExpr.some (ExprAST.varRef "a"))
        VarList.nil) (varsStepState "a" (Value.cst 7) stBlk) 10 (by decide)]; rfl),
   c2_initializer_scope.2.2.2.1 "x" (Value.cst 1) stBlk "x",
   c2_initializer_scope.2.2.2.2.1 (OptExpr.some sentinelProg) stBlk
     (codegen sentinelProg stBlk).2 (Value.reg 0) (by decide)
     (by rw [codegenInit_some, codegen_fuel sentinelProg stBlk 50 (by decide)]; rfl) "x"⟩

/-- C3 counterexample: the spec says that after successfully lowering any
scoped-binding block, every shadowed name resolves to exactly its
pre-construct result; but after `var x = 1, x = 2 in 3` (duplicate names),
the previously-unbound `x` resolves to the block's own first alloca. -/
theorem c3_counterexample :
    (codegen dupProg stBlk).1 = some (Value.cst 3) ∧
    stBlk.namedValues "x" = Option.none ∧
    ¬ (((codegen dupProg stBlk).2.namedValues "x").join =
        (stBlk.namedValues "x").join) := by
  refine ⟨?_, rfl, ?_⟩
  · rw [codegen_fuel dupProg stBlk 50 (by decide)]
    decide
  · rw [codegen_fuel dupProg stBlk 50 (by decide)]
    decide

/-- C3 (amended): after successfully lowering any expression all of whose
scoped-binding blocks bind pairwise-distinct names, every name resolves to
exactly its pre-construct result (same handle or not-found), at any nesting
depth; a counted loop removes a previously-unbound loop variable from the
table entirely, but a scoped-binding block re-binds its first name to the
old null-collapsed view — leaving a previously-unbound name present, bound
to the null sentinel — and a duplicate-name block leaves the name bound to
the block's own first alloca. -/
theorem c3_scope_restoration :
    (∀ (e : ExprAST) (s : CG) (v : Value) (s1 : CG), wfE e = true →
      codegen e s = (some v, s1) →
      ∀ y, (s1.namedValues y).join = (s.namedValues y).join) ∧
    (∀ (varName : String) (start endE : ExprAST) (step : OptExpr) (body : ExprAST)
      (s : CG) (v : Value) (s1 : CG), wfE start = true →
      codegen (ExprAST.forE varName start endE step body) s = (some v, s1) →
      s1.namedValues varName = ((s.namedValues varName).join).map some) ∧
    (∀ (name : String) (init : OptExpr) (rest : VarList) (body : ExprAST)
      (s : CG) (v : Value) (s1 : CG), wfOpt init = true →
      distinctNames (VarList.cons name init rest).names = true →
      codegen (ExprAST.varE (VarList.cons name init rest) body) s = (some v, s1) →
      s1.namedValues name = some ((s.namedValues name).join)) ∧
    (codegen dupProg stBlk).2.namedValues "x" = some (some 0) :=
  ⟨codegen_join, forE_success_var, varE_success_first,
   by rw [codegen_fuel dupProg stBlk 50 (by decide)]; decide⟩

/-- C3 witness: the three general parts of `c3_scope_restoration` applied
at concrete inputs (a terminating loop over a fresh variable, and a
single-binding block over a fresh name). -/
theorem c3_witness :
    (wfE trivialFor = true ∧
      ((codegen trivialFor stBlk).2.namedValues "q").join =
        (stBlk.namedValues "q").join) ∧
    (codegen trivialFor stBlk).2.namedValues "i" =
      ((stBlk.namedValues "i").join).map some ∧
    (codegen sentinelProg stBlk).2.namedValues "x" =
      some ((stBlk.namedValues "x").join) :=
  ⟨⟨by decide,
    c3_scope_restoration.1 trivialFor stBlk (Value.cst 0) (codegen trivialFor stBlk).2
      (by decide)
      (by rw [codegen_fuel trivialFor stBlk 50 (by decide)]; rfl) "q"⟩,
   c3_scope_restoration.2.1 "i" (ExprAST.number 1) (ExprAST.number 1) OptExpr.none
      (ExprAST.number 5) stBlk (Value.cst 0)
      (codegen (ExprAST.forE "i" (ExprAST.number 1) (ExprAST.number 1) OptExpr.none
        (ExprAST.number 5)) stBlk).2
      (by decide)
      (by rw [codegen_fuel (ExprAST.forE "i" (ExprAST.number 1) (ExprAST.number 1)
          OptExpr.none (ExprAST.number 5)) stBlk 50 (by decide)]; rfl),
   c3_scope_restoration.2.2.1 "x" (OptExpr.some (ExprAST.number 1)) VarList.nil
      (ExprAST.varRef "x") stBlk (Value.reg 0)
      (codegen (ExprAST.varE (VarList.cons "x" (OptExpr.some (ExprAST.number 1)) VarList.nil)
        (ExprAST.varRef "x")) stBlk).2
      (by decide) (by decide)
      (by rw [codegen_fuel (ExprAST.varE (VarList.cons "x" (OptExpr.some (ExprAST.number 1))
          VarList.nil) (ExprAST.varRef "x")) stBlk 50 (by decide)]; rfl)⟩

/-- C4 counterexample: the spec says that if the left operand of a built-in
binary operator fails, the right operand is not lowered at all and the
failure is passed up unchanged; but lowering `y + z` with both names
unbound logs the unknown-variable error twice and default-inserts `z` into
the scope table — the right operand was lowered. -/
theorem c4_counterexample :
    (codegen (ExprAST.binary '+' (ExprAST.varRef "y") (ExprAST.varRef "z")) st0).1 =
      Option.none ∧
    (codegen (ExprAST.binary '+' (ExprAST.varRef "y") (ExprAST.varRef "z")) st0).2.errors =
      ["Unknown variable name", "Unknown variable name"] ∧
    (codegen (ExprAST.binary '+' (ExprAST.varRef "y") (ExprAST.varRef "z")) st0).2.namedValues
      "z" = some Option.none := by
  refine ⟨?_, ?_, ?_⟩ <;>
    · rw [codegen_fuel (ExprAST.binary '+' (ExprAST.varRef "y") (ExprAST.varRef "z")) st0 50
        (by decide)]
      decide

/-- C4 (amended): for every binary application of a built-in operator
(+, -, *, <) whose left operand fails to lower, the right operand is still
lowered (left then right), and the construct then fails, its final state
being the right operand's. -/
theorem c4_both_operands_lowered (op : Char) (lhs rhs : ExprAST) (s : CG)
    (hop : op ∈ ['+', '-', '*', '<'])
    (hfail : (codegen lhs s).1 = Option.none) :
    codegen (ExprAST.binary op lhs rhs) s =
      (Option.none, (codegen rhs (codegen lhs s).2).2) := by
  have hne : ¬ (op = '=') := by
    intro h
    subst h
    exact absurd hop (by decide)
  rw [codegen_binary, if_neg hne, hfail]

/-- C4 witness: `c4_both_operands_lowered` at `y + z` in the driver's
start state. -/
theorem c4_witness :
    ('+' ∈ ['+', '-', '*', '<']) ∧
    codegen (ExprAST.binary '+' (ExprAST.varRef "y") (ExprAST.varRef "z")) st0 =
      (Option.none,
       (codegen (ExprAST.varRef "z") (codegen (ExprAST.varRef "y") st0).2).2) :=
  ⟨by decide,
   c4_both_operands_lowered '+' (ExprAST.varRef "y") (ExprAST.varRef "z") st0 (by decide)
     (by rw [codegen_fuel (ExprAST.varRef "y") st0 50 (by decide)]; decide)⟩

/-- C5: if defining a binary-operator function over a fresh name fails
(here: after the callable was created, since the name is fresh the
prototype step succeeds), the callable is erased from the module, the
operator's registry entry is retracted, and a subsequent dispatch of the
operator symbol fails (the op-switch's default case no longer finds
`binary`+Op). -/
theorem c5_rollback (sym : Char) (prec : Int) (argNames : List String) (body : ExprAST)
    (s : CG) (r : CG) (lv rv : Value)
    (hsym : ¬ (sym ∈ ['+', '-', '*', '<']))
    (hfresh : getFunction s.module ("binary".push sym) = Option.none)
    (heq : funcCodegen ⟨"binary".push sym, argNames, OpRole.binaryOp sym prec⟩ body s =
      (Option.none, r)) :
    getFunction r.module ("binary".push sym) = Option.none ∧
    r.binopPrec sym = Option.none ∧
    (builtinBinOp sym lv rv r).1 = Option.none := by
  simp only [funcCodegen, protoCodegen] at heq
  rw [hfresh] at heq
  dsimp only at heq
  split at heq
  · rename_i rv2 s6 hB
    simp at heq
  · rename_i s6 hB
    simp only [Prod.mk.injEq] at heq
    obtain ⟨-, hr⟩ := heq
    subst hr
    refine ⟨getFunction_erase _ _, by simp, ?_⟩
    unfold builtinBinOp
    split
    · exact absurd (by decide) hsym
    · exact absurd (by decide) hsym
    · exact absurd (by decide) hsym
    · exact absurd (by decide) hsym
    · dsimp only
      rw [getFunction_erase]

/-- C5 witness: `c5_rollback` at `binary@` (precedence 5) whose body is the
unbound name `nope`, in the driver's start state. -/
theorem c5_witness :
    ¬ ('@' ∈ ['+', '-', '*', '<']) ∧
    getFunction st0.module ("binary".push '@') = Option.none ∧
    getFunction (funcCodegen opProto (ExprAST.varRef "nope") st0).2.module
      ("binary".push '@') = Option.none ∧
    (funcCodegen opProto (ExprAST.varRef "nope") st0).2.binopPrec '@' = Option.none ∧
    (builtinBinOp '@' (Value.cst 1) (Value.cst 2)
      (funcCodegen opProto (ExprAST.varRef "nope") st0).2).1 = Option.none := by
  have h := c5_rollback '@' 5 ["x", "y"] (ExprAST.varRef "nope") st0
      (funcCodegen opProto (ExprAST.varRef "nope") st0).2 (Value.cst 1) (Value.cst 2)
      (by decide) (by decide)
      (by rw [funcCodegen_fuel opProto (ExprAST.varRef "nope") st0 5 (by decide)]; rfl)
  exact ⟨by decide, by decide, h.1, h.2.1, h.2.2⟩

/-- C6: a prototype over an already-defined name (existing body) fails with
the redefinition error; over a declared-only name with a different arity it
fails with the arity error; over a declared-only name with the same arity
it succeeds reusing the declaration; concretely, defining `foo(x) = x`
twice fails on the second with the redefinition error, and defining the
declared-only `putchard` succeeds. -/
theorem c6_proto_rules :
    (∀ (p : PrototypeAST) (s : CG) (f : Func),
      getFunction s.module p.name = some f → f.blocks ≠ [] →
      protoCodegen p s =
        (Option.none, { s with errors := s.errors ++ ["redefinition of function"] })) ∧
    (∀ (p : PrototypeAST) (s : CG) (f : Func),
      getFunction s.module p.name = some f → f.blocks = [] → f.arity ≠ p.args.length →
      protoCodegen p s =
        (Option.none,
         { s with errors := s.errors ++ ["redefinition of function with different # args"] })) ∧
    (∀ (p : PrototypeAST) (s : CG) (f : Func),
      getFunction s.module p.name = some f → f.blocks = [] → f.arity = p.args.length →
      protoCodegen p s = (some p.name, s)) ∧
    (funcCodegen fooProto (ExprAST.varRef "x") st0).1 = some "foo" ∧
    (funcCodegen fooProto (ExprAST.varRef "x")
      (funcCodegen fooProto (ExprAST.varRef "x") st0).2).1 = Option.none ∧
    (funcCodegen fooProto (ExprAST.varRef "x")
      (funcCodegen fooProto (ExprAST.varRef "x") st0).2).2.errors =
      ["redefinition of function"] ∧
    (funcCodegen ⟨"putchard", ["x"], OpRole.none⟩ (ExprAST.varRef "x") stP).1 =
      some "putchard" := by
  refine ⟨?_, ?_, ?_, ?_, ?_, ?_, ?_⟩
  · intro p s f hg hb
    simp only [protoCodegen]
    rw [hg]
    dsimp only
    rw [if_pos hb]
  · intro p s f hg hb ha
    simp only [protoCodegen]
    rw [hg]
    dsimp only
    rw [if_neg (fun h2 => h2 hb), if_pos ha]
  · intro p s f hg hb ha
    simp only [protoCodegen]
    rw [hg]
    dsimp only
    rw [if_neg (fun h2 => h2 hb), if_neg (fun h2 => h2 ha)]
  · rw [funcCodegen_fuel fooProto (ExprAST.varRef "x") st0 5 (by decide)]
    decide
  · rw [funcCodegen_fuel fooProto (ExprAST.varRef "x") st0 5 (by decide),
      funcCodegen_fuel fooProto (ExprAST.varRef "x")
        ((funcCodegenF 5 fooProto (ExprAST.varRef "x") st0).2) 5 (by decide)]
    decide
  · rw [funcCodegen_fuel fooProto (ExprAST.varRef "x") st0 5 (by decide),
      funcCodegen_fuel fooProto (ExprAST.varRef "x")
        ((funcCodegenF 5 fooProto (ExprAST.varRef "x") st0).2) 5 (by decide)]
    decide
  · rw [funcCodegen_fuel ⟨"putchard", ["x"], OpRole.none⟩ (ExprAST.varRef "x") stP 5
      (by decide)]
    decide

/-- C6 witness: the three general parts of `c6_proto_rules` applied in a
module holding a defined `foo(x)` and a declared-only `bar(x, y)`. -/
theorem c6_witness :
    protoCodegen fooProto stTwo =
      (Option.none, { stTwo with errors := stTwo.errors ++ ["redefinition of function"] }) ∧
    protoCodegen ⟨"bar", ["a"], OpRole.none⟩ stTwo =
      (Option.none,
       { stTwo with errors :=
          stTwo.errors ++ ["redefinition of function with different # args"] }) ∧
    protoCodegen ⟨"bar", ["a", "b"], OpRole.none⟩ stTwo = (some "bar", stTwo) :=
  ⟨c6_proto_rules.1 fooProto stTwo ⟨1, [⟨0, [], Option.none⟩]⟩ (by decide) (by decide),
   c6_proto_rules.2.1 ⟨"bar", ["a"], OpRole.none⟩ stTwo ⟨2, []⟩ (by decide) (by decide)
     (by decide),
   c6_proto_rules.2.2.1 ⟨"bar", ["a", "b"], OpRole.none⟩ stTwo ⟨2, []⟩ (by decide)
     (by decide) (by decide)⟩

/-- C7: lowering a call fails with the unknown-function error when the
callee is absent; fails with the arity error whenever the argument count
differs from the callable's parameter count, regardless of the arguments;
the argument loop stops at the first failing argument; and an argument-loop
failure makes the call fail with the failing argument's state. -/
theorem c7_call_rules :
    (∀ (callee : String) (args : ExprList) (s : CG),
      getFunction s.module callee = Option.none →
      codegen (ExprAST.call callee args) s = errorV "Unknown function referenced" s) ∧
    (∀ (callee : String) (args : ExprList) (s : CG) (f : Func),
      getFunction s.module callee = some f → f.arity ≠ args.length →
      codegen (ExprAST.call callee args) s = errorV "Incorrect # arguments passed" s) ∧
    (∀ (e : ExprAST) (rest : ExprList) (s : CG),
      (codegen e s).1 = Option.none →
      codegenArgs (ExprList.cons e rest) s = (Option.none, (codegen e s).2)) ∧
    (∀ (callee : String) (args : ExprList) (s : CG) (f : Func) (s1 : CG),
      getFunction s.module callee = some f → f.arity = args.length →
      codegenArgs args s = (Option.none, s1) →
      codegen (ExprAST.call callee args) s = (Option.none, s1)) := by
  refine ⟨?_, ?_, ?_, ?_⟩
  · intro callee args s hg
    rw [codegen_call, hg]
  · intro callee args s f hg ha
    rw [codegen_call, hg]
    dsimp only
    rw [if_pos ha]
  · intro e rest s hfail
    have h2 : codegen e s = (Option.none, (codegen e s).2) := by
      rw [← hfail]
    rw [codegenArgs_cons, h2]
  · intro callee args s f s1 hg ha hargs
    rw [codegen_call, hg]
    dsimp only
    rw [if_neg (fun h2 => h2 ha), hargs]

/-- C7 witness: the parts of `c7_call_rules` at concrete calls (`nope()`
unknown, `putchard()` with 0 of 1 arguments, an argument list starting with
an unbound name, and `putchard(y)` with `y` unbound). -/
theorem c7_witness :
    codegen (ExprAST.call "nope" ExprList.nil) st0 =
      errorV "Unknown function referenced" st0 ∧
    codegen (ExprAST.call "putchard" ExprList.nil) stP =
      errorV "Incorrect # arguments passed" stP ∧
    codegenArgs (ExprList.cons (ExprAST.varRef "y") (ExprList.cons (ExprAST.number 1)
      ExprList.nil)) st0 = (Option.none, (codegen (ExprAST.varRef "y") st0).2) ∧
    codegen (ExprAST.call "putchard"
      (ExprList.cons (ExprAST.varRef "y") ExprList.nil)) stP =
      (Option.none,
       (codegenArgs (ExprList.cons (ExprAST.varRef "y") ExprList.nil) stP).2) :=
  ⟨c7_call_rules.1 "nope" ExprList.nil st0 (by decide),
   c7_call_rules.2.1 "putchard" ExprList.nil stP ⟨1, []⟩ (by decide) (by decide),
   c7_call_rules.2.2.1 (ExprAST.varRef "y") (ExprList.cons (ExprAST.number 1) ExprList.nil)
     st0 (by rw [codegen_fuel (ExprAST.varRef "y") st0 5 (by decide)]; decide),
   c7_call_rules.2.2.2 "putchard" (ExprList.cons (ExprAST.varRef "y") ExprList.nil) stP
     ⟨1, []⟩ (codegenArgs (ExprList.cons (ExprAST.varRef "y") ExprList.nil) stP).2
     (by decide) (by decide)
     (by rw [codegenArgs_fuel (ExprList.cons (ExprAST.varRef "y") ExprList.nil) stP 5
        (by decide)]; rfl)⟩

/-- C8: for a binary application whose operator is `=`: a left operand that
is not statically a variable-reference node fails with the
assignment-target error before anything is lowered; otherwise only the
right operand is lowered; an unresolvable variable gives the
unknown-variable error; and on success a store is emitted and the
assignment's own value is the stored right-operand value. -/
theorem c8_assign_rules :
    (∀ (lhs rhs : ExprAST) (s : CG), (∀ n, ¬ (lhs = ExprAST.varRef n)) →
      codegen (ExprAST.binary '=' lhs rhs) s =
        errorV "destination of '=' must be a variable" s) ∧
    (∀ (name : String) (rhs : ExprAST) (s : CG), (codegen rhs s).1 = Option.none →
      codegen (ExprAST.binary '=' (ExprAST.varRef name) rhs) s =
        (Option.none, (codegen rhs s).2)) ∧
    (∀ (name : String) (rhs : ExprAST) (s : CG) (v : Value) (s1 : CG),
      codegen rhs s = (some v, s1) → (nvIndex s1.namedValues name).1 = Option.none →
      codegen (ExprAST.binary '=' (ExprAST.varRef name) rhs) s =
        errorV "Unknown variable name"
          { s1 with namedValues := (nvIndex s1.namedValues name).2 }) ∧
    (∀ (name : String) (rhs : ExprAST) (s : CG) (v : Value) (s1 : CG) (slot : Nat),
      codegen rhs s = (some v, s1) → (nvIndex s1.namedValues name).1 = some slot →
      codegen (ExprAST.binary '=' (ExprAST.varRef name) rhs) s =
        (some v, emit (Instr.store v slot)
          { s1 with namedValues := (nvIndex s1.namedValues name).2 })) := by
  refine ⟨?_, ?_, ?_, ?_⟩
  · intro lhs rhs s h
    rw [codegen_binary, if_pos rfl]
    cases lhs
    case varRef n => exact absurd rfl (h n)
    all_goals rfl
  · intro name rhs s hfail
    have h2 : codegen rhs s = (Option.none, (codegen rhs s).2) := by
      rw [← hfail]
    rw [codegen_binary, if_pos rfl, h2]
  · intro name rhs s v s1 heq hidx
    rw [codegen_binary, if_pos rfl, heq]
    dsimp only
    rw [hidx]
  · intro name rhs s v s1 slot heq hidx
    rw [codegen_binary, if_pos rfl, heq]
    dsimp only
    rw [hidx]

/-- C8 witness: the parts of `c8_assign_rules` at concrete assignments
(`3 = 5`, `x = nope`, `x = 5` with `x` unbound, and `x = 5` with `x` bound
to stack slot 0). -/
theorem c8_witness :
    codegen (ExprAST.binary '=' (ExprAST.number 3) (ExprAST.number 5)) st0 =
      errorV "destination of '=' must be a variable" st0 ∧
    codegen (ExprAST.binary '=' (ExprAST.varRef "x") (ExprAST.varRef "nope")) st0 =
      (Option.none, (codegen (ExprAST.varRef "nope") st0).2) ∧
    codegen (ExprAST.binary '=' (ExprAST.varRef "x") (ExprAST.number 5)) st0 =
      errorV "Unknown variable name"
        { st0 with namedValues := (nvIndex st0.namedValues "x").2 } ∧
    codegen (ExprAST.binary '=' (ExprAST.varRef "x") (ExprAST.number 5)) stV =
      (some (Value.cst 5), emit (Instr.store (Value.cst 5) 0)
        { stV with namedValues := (nvIndex stV.namedValues "x").2 }) :=
  ⟨c8_assign_rules.1 (ExprAST.number 3) (ExprAST.number 5) st0
     (fun n h => ExprAST.noConfusion h),
   c8_assign_rules.2.1 "x" (ExprAST.varRef "nope") st0
     (by rw [codegen_fuel (ExprAST.varRef "nope") st0 5 (by decide)]; decide),
   c8_assign_rules.2.2.1 "x" (ExprAST.number 5) st0 (Value.cst 5) st0 rfl (by decide),
   c8_assign_rules.2.2.2 "x" (ExprAST.number 5) stV (Value.cst 5) stV 0 rfl (by decide)⟩

/-- C9 counterexample: the claim says a failing loop leaves the loop
variable bound to the loop's storage; but in
`for i = 1, 1 in (var i = 2 in nope)` the failing body re-shadows `i`, and
`i` is left bound to the inner block's alloca (slot 1), not the loop's own
alloca (slot 0). -/
theorem c9_counterexample :
    (newSlot stBlk).1 = 0 ∧
    (codegen reshadowFailFor stBlk).1 = Option.none ∧
    (codegen reshadowFailFor stBlk).2.namedValues "i" = some (some 1) ∧
    ¬ ((codegen reshadowFailFor stBlk).2.namedValues "i" = some (some 0)) := by
  refine ⟨rfl, ?_, ?_, ?_⟩ <;>
    · rw [codegen_fuel reshadowFailFor stBlk 50 (by decide)]
      decide

/-- C9 (amended): on the failure path shadow bindings are not restored —
a counted loop whose body, step, or end-condition fails returns exactly the
failing sub-lowering's state (no saved binding is reinstated), likewise a
scoped-binding block whose body fails; the stale bindings last until
`FunctionAST::Codegen` clears the scope table, which makes the function
lowering insensitive to the incoming table; concretely a failing loop body
leaves `i` bound to the loop's slot, and a failing block body leaves `y`
bound to the block's slot. -/
theorem c9_no_restore_on_failure :
    (∀ (varName : String) (start endE : ExprAST) (step : OptExpr) (body : ExprAST)
      (s sB s6 : CG) (sv : Value),
      codegen start (newSlot s).2 = (some sv, sB) →
      codegen body (forBodyState varName sv (newSlot s).1 sB) = (Option.none, s6) →
      codegen (ExprAST.forE varName start endE step body) s = (Option.none, s6)) ∧
    (∀ (varName : String) (start endE : ExprAST) (step : OptExpr) (body : ExprAST)
      (s sB s6 s7 : CG) (sv bv : Value),
      codegen start (newSlot s).2 = (some sv, sB) →
      codegen body (forBodyState varName sv (newSlot s).1 sB) = (some bv, s6) →
      codegenStep step s6 = (Option.none, s7) →
      codegen (ExprAST.forE varName start endE step body) s = (Option.none, s7)) ∧
    (∀ (varName : String) (start endE : ExprAST) (step : OptExpr) (body : ExprAST)
      (s sB s6 s7 s8 : CG) (sv bv stepV : Value),
      codegen start (newSlot s).2 = (some sv, sB) →
      codegen body (forBodyState varName sv (newSlot s).1 sB) = (some bv, s6) →
      codegenStep step s6 = (some stepV, s7) →
      codegen endE s7 = (Option.none, s8) →
      codegen (ExprAST.forE varName start endE step body) s = (Option.none, s8)) ∧
    (∀ (vars : VarList) (body : ExprAST) (s : CG) (olds : List (Option Nat)) (s1 s2 : CG),
      codegenVars vars s = (some olds, s1) →
      codegen body s1 = (Option.none, s2) →
      codegen (ExprAST.varE vars body) s = (Option.none, s2)) ∧
    (∀ (p : PrototypeAST) (body : ExprAST) (s : CG) (t : String → Option (Option Nat)),
      funcCodegen p body { s with namedValues := t } = funcCodegen p body s) ∧
    (codegen failFor stBlk).1 = Option.none ∧
    (codegen failFor stBlk).2.namedValues "i" = some (some 0) ∧
    (codegen (ExprAST.varE (VarList.cons "y" (OptExpr.some (ExprAST.number 1)) VarList.nil)
      (ExprAST.varRef "nope")) stBlk).2.namedValues "y" = some (some 0) := by
  refine ⟨?_, ?_, ?_, ?_, ?_, ?_, ?_, ?_⟩
  · intro varName start endE step body s sB s6 sv hS hB
    rw [codegen_forE]
    dsimp only
    rw [hS]
    dsimp only
    split
    · rename_i s6b heqB
      have h3 := hB.symm.trans
        (show codegen body (forBodyState varName sv (newSlot s).1 sB) =
          (Option.none, s6b) from heqB)
      simp only [Prod.mk.injEq, true_and] at h3
      rw [h3]
    · rename_i bv s6b heqB
      have h3 := hB.symm.trans
        (show codegen body (forBodyState varName sv (newSlot s).1 sB) =
          (some bv, s6b) from heqB)
      simp at h3
  · intro varName start endE step body s sB s6 s7 sv bv hS hB hStep
    rw [codegen_forE]
    dsimp only
    rw [hS]
    dsimp only
    split
    · rename_i s6b heqB
      have h3 := hB.symm.trans
        (show codegen body (forBodyState varName sv (newSlot s).1 sB) =
          (Option.none, s6b) from heqB)
      simp at h3
    · rename_i bv2 s6b heqB
      have h3 := hB.symm.trans
        (show codegen body (forBodyState varName sv (newSlot s).1 sB) =
          (some bv2, s6b) from heqB)
      simp only [Prod.mk.injEq, Option.some.injEq] at h3
      rw [← h3.2, hStep]
  · intro varName start endE step body s sB s6 s7 s8 sv bv stepV hS hB hStep hE
    rw [codegen_forE]
    dsimp only
    rw [hS]
    dsimp only
    split
    · rename_i s6b heqB
      have h3 := hB.symm.trans
        (show codegen body (forBodyState varName sv (newSlot s).1 sB) =
          (Option.none, s6b) from heqB)
      simp at h3
    · rename_i bv2 s6b heqB
      have h3 := hB.symm.trans
        (show codegen body (forBodyState varName sv (newSlot s).1 sB) =
          (some bv2, s6b) from heqB)
      simp only [Prod.mk.injEq, Option.some.injEq] at h3
      rw [← h3.2, hStep]
      dsimp only
      rw [hE]
  · intro vars body s olds s1 s2 hV hB
    rw [codegen_varE, hV]
    dsimp only
    rw [hB]
  · intro p body s t
    rfl
  · rw [codegen_fuel failFor stBlk 50 (by decide)]
    decide
  · rw [codegen_fuel failFor stBlk 50 (by decide)]
    decide
  · rw [codegen_fuel (ExprAST.varE (VarList.cons "y" (OptExpr.some (ExprAST.number 1))
      VarList.nil) (ExprAST.varRef "nope")) stBlk 50 (by decide)]
    decide

/-- C9 witness: the five general parts of `c9_no_restore_on_failure`
applied at concrete loops and blocks whose body, step, or end-condition is
the unbound name `nope`. -/
theorem c9_witness :
    codegen failFor stBlk =
      (Option.none, (codegen (ExprAST.varRef "nope")
        (forBodyState "i" (Value.cst 1) (newSlot stBlk).1 (newSlot stBlk).2)).2) ∧
    codegen (ExprAST.forE "i" (ExprAST.number 1) (ExprAST.number 1)
        (OptExpr.some (ExprAST.varRef "nope")) (ExprAST.number 2)) stBlk =
      (Option.none, (codegenStep (OptExpr.some (ExprAST.varRef "nope"))
        (forBodyState "i" (Value.cst 1) (newSlot stBlk).1 (newSlot stBlk).2)).2) ∧
    codegen (ExprAST.forE "i" (ExprAST.number 1) (ExprAST.varRef "nope")
        OptExpr.none (ExprAST.number 2)) stBlk =
      (Option.none, (codegen (ExprAST.varRef "nope")
        (forBodyState "i" (Value.cst 1) (newSlot stBlk).1 (newSlot stBlk).2)).2) ∧
    codegen (ExprAST.varE (VarList.cons "y" (OptExpr.some (ExprAST.number 1)) VarList.nil)
        (ExprAST.varRef "nope")) stBlk =
      (Option.none, (codegen (ExprAST.varRef "nope")
        (codegenVars (VarList.cons "y" (OptExpr.some (ExprAST.number 1)) VarList.nil)
          stBlk).2).2) ∧
    funcCodegen tProto (ExprAST.number 1)
        { st0 with namedValues := nvAssign "i" (some 5) st0.namedValues } =
      funcCodegen tProto (ExprAST.number 1) st0 :=
  ⟨c9_no_restore_on_failure.1 "i" (ExprAST.number 1) (ExprAST.number 1) OptExpr.none
     (ExprAST.varRef "nope") stBlk (newSlot stBlk).2
     (codegen (ExprAST.varRef "nope")
       (forBodyState "i" (Value.cst 1) (newSlot stBlk).1 (newSlot stBlk).2)).2
     (Value.cst 1) rfl
     (by rw [codegen_fuel (ExprAST.varRef "nope")
        (forBodyState "i" (Value.cst 1) (newSlot stBlk).1 (newSlot stBlk).2) 5
        (by decide)]; rfl),
   c9_no_restore_on_failure.2.1 "i" (ExprAST.number 1) (ExprAST.number 1)
     (OptExpr.some (ExprAST.varRef "nope")) (ExprAST.number 2) stBlk (newSlot stBlk).2
     (forBodyState "i" (Value.cst 1) (newSlot stBlk).1 (newSlot stBlk).2)
     (codegenStep (OptExpr.some (ExprAST.varRef "nope"))
       (forBodyState "i" (Value.cst 1) (newSlot stBlk).1 (newSlot stBlk).2)).2
     (Value.cst 1) (Value.cst 2) rfl rfl
     (by rw [codegenStep_some, codegen_fuel (ExprAST.varRef "nope")
        (forBodyState "i" (Value.cst 1) (newSlot stBlk).1 (newSlot stBlk).2) 5
        (by decide)]; rfl),
   c9_no_restore_on_failure.2.2.1 "i" (ExprAST.number 1) (ExprAST.varRef "nope")
     OptExpr.none (ExprAST.number 2) stBlk (newSlot stBlk).2
     (forBodyState "i" (Value.cst 1) (newSlot stBlk).1 (newSlot stBlk).2)
     (forBodyState "i" (Value.cst 1) (newSlot stBlk).1 (newSlot stBlk).2)
     (codegen (ExprAST.varRef "nope")
       (forBodyState "i" (Value.cst 1) (newSlot stBlk).1 (newSlot stBlk).2)).2
     (Value.cst 1) (Value.cst 2) (Value.cst 1) rfl rfl rfl
     (by rw [codegen_fuel (ExprAST.varRef "nope")
        (forBodyState "i" (Value.cst 1) (newSlot stBlk).1 (newSlot stBlk).2) 5
        (by decide)]; rfl),
   c9_no_restore_on_failure.2.2.2.1
     (VarList.cons "y" (OptExpr.some (ExprAST.number 1)) VarList.nil)
     (ExprAST.varRef "nope") stBlk [Option.none]
     (codegenVars (VarList.cons "y" (OptExpr.some (ExprAST.number 1)) VarList.nil) stBlk).2
     (codegen (ExprAST.varRef "nope")
       (codegenVars (VarList.cons "y" (OptExpr.some (ExprAST.number 1)) VarList.nil)
         stBlk).2).2
     (by rw [codegenVars_fuel (VarList.cons "y" (OptExpr.some (ExprAST.number 1))
        VarList.nil) stBlk 10 (by decide)]; rfl)
     (by rw [codegenVars_fuel (VarList.cons "y" (OptExpr.some (ExprAST.number 1))
          VarList.nil) stBlk 10 (by decide),
        codegen_fuel (ExprAST.varRef "nope") _ 5 (by decide)]; rfl),
   c9_no_restore_on_failure.2.2.2.2.1 tProto (ExprAST.number 1) st0
     (nvAssign "i" (some 5) st0.namedValues)⟩

/-- C10: a scope-table entry binding a name to the null handle is
indistinguishable, at the lowering interface, from the name being absent:
starting from a state where `x` is unbound and the same state with `x`
re-bound to the null sentinel, every expression lowers to the same result
with observationally equivalent final states, and a variable reference to
`x` (or an assignment to `x`) fails with the unknown-variable error in both
states alike. -/
theorem c10_null_indistinguishable (x : String) (s s2 : CG) (e : ExprAST)
    (hx : s.namedValues x = Option.none)
    (hs2 : s2 = { s with namedValues := nvAssign x Option.none s.namedValues }) :
    (codegen e s2).1 = (codegen e s).1 ∧
    CGEquiv (codegen e s).2 (codegen e s2).2 ∧
    (codegen (ExprAST.varRef x) s).1 = Option.none ∧
    (codegen (ExprAST.varRef x) s2).1 = Option.none ∧
    (codegen (ExprAST.varRef x) s).2.errors = s.errors ++ ["Unknown variable name"] ∧
    (codegen (ExprAST.varRef x) s2).2.errors = s.errors ++ ["Unknown variable name"] ∧
    (codegen (ExprAST.binary '=' (ExprAST.varRef x) (ExprAST.number 0)) s).1 =
      Option.none ∧
    (codegen (ExprAST.binary '=' (ExprAST.varRef x) (ExprAST.number 0)) s2).1 =
      Option.none := by
  subst hs2
  have hE : CGEquiv s { s with namedValues := nvAssign x Option.none s.namedValues } := by
    refine ⟨rfl, ?_⟩
    intro y
    rw [nvAssign_join]
    by_cases hy : y = x
    · rw [if_pos hy, hy, hx]
      rfl
    · rw [if_neg hy]
  have h1 : (nvIndex s.namedValues x).1 = Option.none := by
    rw [nvIndex_fst, hx]
    rfl
  have h2 : (nvIndex (nvAssign x Option.none s.namedValues) x).1 = Option.none := by
    rw [nvIndex_fst, nvAssign_join, if_pos rfl]
  obtain ⟨hfst, hequiv⟩ := codegen_equiv e s _ hE
  refine ⟨hfst, hequiv, ?_, ?_, ?_, ?_, ?_, ?_⟩
  · rw [codegen_varRef, h1]
    rfl
  · rw [codegen_varRef]
    dsimp only
    rw [h2]
    rfl
  · rw [codegen_varRef, h1]
    rfl
  · rw [codegen_varRef]
    dsimp only
    rw [h2]
    rfl
  · rw [codegen_binary, if_pos rfl]
    dsimp only
    rw [codegen_number]
    dsimp only
    rw [h1]
    rfl
  · rw [codegen_binary, if_pos rfl]
    dsimp only
    rw [codegen_number]
    dsimp only
    rw [h2]
    rfl

/-- C10 witness: `c10_null_indistinguishable` at `x` in the driver's start
state (where `x` is unbound) against the same state with `x` bound to the
null sentinel, with the variable reference `x` as the test expression. -/
theorem c10_witness :
    (codegen (ExprAST.varRef "x")
      { st0 with namedValues := nvAssign "x" Option.none st0.namedValues }).1 =
      (codegen (ExprAST.varRef "x") st0).1 ∧
    CGEquiv (codegen (ExprAST.varRef "x") st0).2
      (codegen (ExprAST.varRef "x")
        { st0 with namedValues := nvAssign "x" Option.none st0.namedValues }).2 ∧
    (codegen (ExprAST.varRef "x") st0).1 = Option.none ∧
    (codegen (ExprAST.varRef "x")
      { st0 with namedValues := nvAssign "x" Option.none st0.namedValues }).1 =
      Option.none ∧
    (codegen (ExprAST.varRef "x") st0).2.errors =
      st0.errors ++ ["Unknown variable name"] ∧
    (codegen (ExprAST.varRef "x")
      { st0 with namedValues := nvAssign "x" Option.none st0.namedValues }).2.errors =
      st0.errors ++ ["Unknown variable name"] ∧
    (codegen (ExprAST.binary '=' (ExprAST.varRef "x") (ExprAST.number 0)) st0).1 =
      Option.none ∧
    (codegen (ExprAST.binary '=' (ExprAST.varRef "x") (ExprAST.number 0))
      { st0 with namedValues := nvAssign "x" Option.none st0.namedValues }).1 =
      Option.none :=
  c10_null_indistinguishable "x" st0
    { st0 with namedValues := nvAssign "x" Option.none st0.namedValues }
    (ExprAST.varRef "x") rfl rfl

end Klang
